import Mathlib

/-!
Shallow embedding of the gdrive-book-manager core (Deno/TypeScript) and
verification of its specification claims.

The embedding covers:
  - the property codec (truncateToBytes / sanitizeProperties in
    src/services/drive.ts), with an executable model of the UTF-8
    encoder and decoder;
  - the in-memory cache (src/services/cache.ts);
  - the metadata completion engine (CompositeMetadataService: merge /
    isComplete / fetchByIsbn);
  - the book CRUD service (src/services/book.ts) over an abstract
    Google Drive capability record;
  - the Calibre migration engine (CalibreMigrator.migrate /
    migrateBook, parseMetadataOpf, selectBookFile, getMimeType).

Effectful TypeScript methods are embedded as explicit state-passing
functions: a method that can throw becomes a function returning
Except String paired with the post-state, so that state mutations made
before a throw survive the throw, exactly as in JavaScript.
-/

namespace GDrive

deriving instance DecidableEq for Except

/-- JavaScript truthy-or on strings: a || b is a when a is non-empty,
otherwise b. -/
def strOr (a b : String) : String := if a = "" then b else a

/-- JavaScript metadata.field || b where field is an optional string:
undefined and the empty string both fall through to b. -/
def optOr (a : Option String) (b : String) : String :=
  match a with
  | some s => if s = "" then b else s
  | none => b

/-- JS String.prototype.split with a single-character separator
(structurally recursive so that proofs can evaluate it). -/
def splitOnChar (sep : Char) : List Char → List (List Char)
  | [] => [[]]
  | c :: rest =>
    let r := splitOnChar sep rest
    if c = sep then [] :: r
    else
      match r with
      | h :: t => (c :: h) :: t
      | [] => [[c]]

/-- The whitespace class used by trim. -/
def isSpaceChar (c : Char) : Bool := c = ' ' || c = '\t' || c = '\n' || c = '\r'

/-- JS String.prototype.trim on a character list. -/
def trimChars (s : List Char) : List Char :=
  ((s.dropWhile isSpaceChar).reverse.dropWhile isSpaceChar).reverse

/-- JS String.prototype.trim. -/
def trimStr (s : String) : String := String.mk (trimChars s.data)

/-- Does the first list start with the second? -/
def startsWithList : List Char → List Char → Bool
  | _, [] => true
  | [], _ :: _ => false
  | a :: s, b :: p => a = b && startsWithList s p

/-- JS String.prototype.startsWith. -/
def strStartsWith (s pre : String) : Bool := startsWithList s.data pre.data

/-- JS String.prototype.endsWith. -/
def strEndsWith (s pat : String) : Bool := startsWithList s.data.reverse pat.data.reverse

/-- Domain metadata record (BookMetadata in src/types.ts). -/
structure BookMetadata where
  isbn : String
  title : String
  authors : String
  publisher : String
  publishedDate : String
  description : String
  coverImageUrl : String
deriving Repr, DecidableEq

/-- A patch of the domain metadata, with every field optional (the
TypeScript argument type of updateBook, where any subset of the seven
fields may be supplied). -/
structure BookMetadataPatch where
  isbn : Option String := none
  title : Option String := none
  authors : Option String := none
  publisher : Option String := none
  publishedDate : Option String := none
  description : Option String := none
  coverImageUrl : Option String := none
deriving Repr, DecidableEq

/-- A file-like entity held by the external store (DriveFile in
src/types.ts). Properties are the string-to-string key/value map; the
optional display attributes are kept for fidelity. -/
structure DriveFile where
  id : String
  name : String
  mimeType : String
  properties : List (String × String)
  parents : List String
  webContentLink : Option String := none
  thumbnailLink : Option String := none
  size : Option String := none
deriving Repr, DecidableEq

/-- Lookup of a key in a JavaScript-object-like property map. -/
def getProp (props : List (String × String)) (key : String) : Option String :=
  (props.find? (fun p => p.1 = key)).map (fun p => p.2)

/-- Assignment obj.key = v on a JavaScript-object-like property map:
replaces the value in place when the key exists, appends otherwise. -/
def setProp (props : List (String × String)) (key v : String) : List (String × String) :=
  match props with
  | [] => [(key, v)]
  | (k, w) :: rest => if k = key then (k, v) :: rest else (k, w) :: setProp rest key v

/-! ## CompositeMetadataService (src/services/metadata.ts, merge variant)

The external lookup sources are represented by the outcomes of their
fetchByIsbn calls for the fixed ISBN under consideration: an element
Except.error e is a source that throws, Except.ok none a miss, and
Except.ok (some m) a hit returning m. -/

namespace CompositeMetadataService

/-- Field-by-field merge of a later (secondary) result into the
accumulator (primary); translation of CompositeMetadataService.merge. -/
def merge (primary secondary : BookMetadata) : BookMetadata :=
  { isbn := primary.isbn
    title := primary.title
    authors := strOr primary.authors secondary.authors
    publisher := strOr primary.publisher secondary.publisher
    publishedDate := strOr primary.publishedDate secondary.publishedDate
    description := strOr primary.description secondary.description
    coverImageUrl := strOr primary.coverImageUrl secondary.coverImageUrl }

/-- Completeness of the five fill-candidate fields; translation of
CompositeMetadataService.isComplete. -/
def isComplete (m : BookMetadata) : Bool :=
  m.authors != "" && m.publisher != "" && m.publishedDate != "" &&
    m.description != "" && m.coverImageUrl != ""

/-- The source loop of CompositeMetadataService.fetchByIsbn. The second
component of the result counts how many sources were actually queried
(each loop iteration queries exactly one source; the break after a
complete merge stops before querying the rest). -/
def fetchLoop : List (Except String (Option BookMetadata)) → Option BookMetadata →
    Option BookMetadata × Nat
  | [], result => (result, 0)
  | svc :: rest, result =>
    match svc with
    | .error _ =>
      let r := fetchLoop rest result
      (r.1, r.2 + 1)
    | .ok none =>
      let r := fetchLoop rest result
      (r.1, r.2 + 1)
    | .ok (some current) =>
      let merged := match result with
        | none => current
        | some acc => merge acc current
      if isComplete merged then (some merged, 1)
      else
        let r := fetchLoop rest (some merged)
        (r.1, r.2 + 1)

/-- Translation of CompositeMetadataService.fetchByIsbn: run the source
loop starting from a null accumulator. -/
def fetchByIsbn (services : List (Except String (Option BookMetadata))) :
    Option BookMetadata :=
  (fetchLoop services none).1

/-- Number of sources actually queried by fetchByIsbn. -/
def fetchCalls (services : List (Except String (Option BookMetadata))) : Nat :=
  (fetchLoop services none).2

end CompositeMetadataService

/-! ## PropertyCodec (src/services/drive.ts lines 7-35)

Strings are modelled as lists of Unicode scalar values (Lean Char);
TextEncoder is the standard UTF-8 encoder, modelled byte-for-byte by
utf8Bytes, and TextDecoder by utf8Decode (exact on valid UTF-8, which
is the only input the code ever hands it). Bytes are naturals below
256. -/

/-- Per-value byte budget of the Drive property system. -/
def PROPERTY_MAX_BYTES : Nat := 124

/-- UTF-8 encoding of a single Unicode scalar value. -/
def utf8Bytes (c : Char) : List Nat :=
  let v := c.toNat
  if v < 0x80 then [v]
  else if v < 0x800 then [0xC0 + v / 64, 0x80 + v % 64]
  else if v < 0x10000 then [0xE0 + v / 4096, 0x80 + v / 64 % 64, 0x80 + v % 64]
  else [0xF0 + v / 262144, 0x80 + v / 4096 % 64, 0x80 + v / 64 % 64, 0x80 + v % 64]

/-- TextEncoder.encode: UTF-8 bytes of a string. -/
def encodeStr (s : List Char) : List Nat := (s.map utf8Bytes).flatten

/-- The test (b AND 0xC0) === 0x80 identifying UTF-8 continuation
bytes, from truncateToBytes. -/
def isCont (b : Nat) : Bool := b &&& 0xC0 == 0x80

/-- The walk-back loop of truncateToBytes: starting at index e, step
left while the byte at the index is a continuation byte (and the index
is positive). -/
def walkBack (bytes : List Nat) : Nat → Nat
  | 0 => 0
  | e + 1 => if isCont (bytes.getD (e + 1) 0) then walkBack bytes e else e + 1

/-- The U+FFFD replacement character produced by a lenient TextDecoder
on invalid input. -/
def replChar : Char := Char.ofNat 0xFFFD

/-- TextDecoder.decode, auxiliary worker: UTF-8 decoding, exact on
valid UTF-8 and total (replacement character) elsewhere. The fuel
argument is an upper bound on the number of characters still to be
decoded; every step consumes at least one byte and one unit of fuel,
so seeding it with the byte length makes it inexhaustible. -/
def utf8DecodeAux : Nat → List Nat → List Char
  | _, [] => []
  | 0, _ :: _ => []
  | fuel + 1, b :: rest =>
    if b < 0x80 then Char.ofNat b :: utf8DecodeAux fuel rest
    else if b < 0xC0 then replChar :: utf8DecodeAux fuel rest
    else if b < 0xE0 then
      match rest with
      | b2 :: rest2 =>
        if isCont b2 then
          Char.ofNat ((b - 0xC0) * 64 + (b2 - 0x80)) :: utf8DecodeAux fuel rest2
        else replChar :: utf8DecodeAux fuel rest
      | [] => [replChar]
    else if b < 0xF0 then
      match rest with
      | b2 :: b3 :: rest3 =>
        if isCont b2 && isCont b3 then
          Char.ofNat ((b - 0xE0) * 4096 + (b2 - 0x80) * 64 + (b3 - 0x80)) ::
            utf8DecodeAux fuel rest3
        else replChar :: utf8DecodeAux fuel rest
      | _ => replChar :: utf8DecodeAux fuel rest
    else if b < 0xF8 then
      match rest with
      | b2 :: b3 :: b4 :: rest4 =>
        if isCont b2 && isCont b3 && isCont b4 then
          Char.ofNat ((b - 0xF0) * 262144 + (b2 - 0x80) * 4096 +
              (b3 - 0x80) * 64 + (b4 - 0x80)) :: utf8DecodeAux fuel rest4
        else replChar :: utf8DecodeAux fuel rest
      | _ => replChar :: utf8DecodeAux fuel rest
    else replChar :: utf8DecodeAux fuel rest

/-- TextDecoder.decode on a byte list. -/
def utf8Decode (l : List Nat) : List Char := utf8DecodeAux l.length l

/-- Translation of truncateToBytes: encode, return unchanged when the
byte length fits, otherwise cut at maxBytes, walk back off any
continuation bytes, slice and decode. -/
def truncateToBytes (s : List Char) (maxBytes : Nat) : List Char :=
  let encoded := encodeStr s
  if encoded.length ≤ maxBytes then s
  else utf8Decode (encoded.take (walkBack encoded maxBytes))

/-- Translation of sanitizeProperties: per entry, the value byte budget
is PROPERTY_MAX_BYTES minus the key byte length; natural subtraction
models the Math.max(0, ...) floor. -/
def sanitizeProperties (properties : List (List Char × List Char)) :
    List (List Char × List Char) :=
  properties.map (fun p =>
    let keyBytes := (encodeStr p.1).length
    let maxValueBytes := PROPERTY_MAX_BYTES - keyBytes
    (p.1, truncateToBytes p.2 maxValueBytes))

/-! ## Cache (src/services/cache.ts)

The Map of CacheService is an association list with unique keys kept
in insertion order; Date.now() is an explicit now argument. -/

/-- One hour, the default TTL. -/
def DEFAULT_TTL : Nat := 60 * 60 * 1000

/-- A cached value with its absolute expiry timestamp. -/
structure CacheEntry (V : Type) where
  data : V
  expiry : Nat
deriving Repr, DecidableEq

namespace CacheService

/-- Map.set: overwrite in place or append. -/
def set (cache : List (String × CacheEntry V)) (now ttl : Nat) (key : String) (v : V) :
    List (String × CacheEntry V) :=
  match cache with
  | [] => [(key, ⟨v, now + ttl⟩)]
  | (k, e) :: rest =>
    if k = key then (k, ⟨v, now + ttl⟩) :: rest else (k, e) :: set rest now ttl key v

/-- CacheService.get: absent if never set or expired; an expired entry
is evicted as a side effect. -/
def get (cache : List (String × CacheEntry V)) (now : Nat) (key : String) :
    Option V × List (String × CacheEntry V) :=
  match cache.find? (fun e => e.1 = key) with
  | none => (none, cache)
  | some (_, e) =>
    if now > e.expiry then (none, cache.filter (fun x => !(x.1 = key)))
    else (some e.data, cache)

/-- CacheService.has: same liveness logic as get. -/
def has (cache : List (String × CacheEntry V)) (now : Nat) (key : String) :
    Bool × List (String × CacheEntry V) :=
  match cache.find? (fun e => e.1 = key) with
  | none => (false, cache)
  | some (_, e) =>
    if now > e.expiry then (false, cache.filter (fun x => !(x.1 = key)))
    else (true, cache)

/-- CacheService.invalidate. -/
def invalidate (cache : List (String × CacheEntry V)) (key : String) :
    List (String × CacheEntry V) :=
  cache.filter (fun x => !(x.1 = key))

/-- CacheService.invalidateAll. -/
def invalidateAll (_cache : List (String × CacheEntry V)) :
    List (String × CacheEntry V) := []

/-- CacheService.invalidateByPrefix: delete every key starting with the
given text. -/
def invalidateByPre (cache : List (String × CacheEntry V)) (pre : String) :
    List (String × CacheEntry V) :=
  cache.filter (fun x => !(strStartsWith x.1 pre))

end CacheService

/-! ## Helper functions of the Drive service (src/services/drive.ts) -/

/-- Translation of formatFileName. -/
def formatFileName (authors title extension : String) : String :=
  "[" ++ authors ++ "] " ++ title ++ "." ++ extension

/-- Translation of getFirstAuthor: authors are separated by hyphens;
take the text before the first hyphen, trimmed. -/
def getFirstAuthor (authors : String) : String :=
  trimStr (String.mk ((splitOnChar '-' authors.data).headD []))

/-- Translation of getExtension. -/
def getExtension (mimeType : String) : String :=
  if mimeType = "application/epub+zip" then "epub"
  else if mimeType = "application/pdf" then "pdf"
  else String.mk ((splitOnChar '/' mimeType.data).getLastD [])

/-! ## BookService (src/services/book.ts)

The GoogleDriveService collaborator is abstract: a record of
state-passing operations over an opaque drive state. Each BookService
method threads a SvcState holding the drive state, the cache map and a
trace of the collaborator calls it has made, in order; the trace is
what lets theorems speak about which calls were or were not issued and
with which arguments. -/

/-- One recorded call to the drive collaborator (or to the global
fetch used for cover download). -/
inductive BCall where
  | ensureMyLibraryFolder
  | ensureAuthorFolder (myLibraryFolderId authorName : String)
  | uploadFile (folderId fileName : String) (content : List Nat) (mimeType : String)
      (properties : List (String × String))
  | uploadCoverImage (folderId fileName : String) (imageData : List Nat) (mimeType : String)
  | updateFileProperties (fileId : String) (properties : List (String × String))
  | renameFile (fileId newName : String)
  | moveFile (fileId newFolderId oldFolderId : String)
  | getFile (fileId : String)
  | getFileContent (fileId : String)
  | deleteFile (fileId : String)
  | findBookByIsbn (isbn : String)
  | fetchUrl (url : String)
deriving Repr, DecidableEq

/-- The external GoogleDriveService capability set, as used by
BookService, over an opaque drive state σ; each operation may throw. -/
structure DriveEnv (σ : Type) where
  ensureMyLibraryFolder : σ → Except String String × σ
  ensureAuthorFolder : String → String → σ → Except String String × σ
  uploadFile : String → String → List Nat → String → List (String × String) →
    σ → Except String DriveFile × σ
  uploadCoverImage : String → String → List Nat → String → σ → Except String DriveFile × σ
  updateFileProperties : String → List (String × String) → σ → Except String DriveFile × σ
  renameFile : String → String → σ → Except String DriveFile × σ
  moveFile : String → String → String → σ → Except String DriveFile × σ
  getFile : String → σ → Except String DriveFile × σ
  getFileContent : String → σ → Except String (List Nat) × σ
  deleteFile : String → σ → Except String Unit × σ
  findBookByIsbn : String → σ → Except String (Option DriveFile) × σ
  findFilesByParent : String → σ → Except String (List DriveFile) × σ
  fetchUrl : String → σ → Except String (Option (List Nat)) × σ

/-- The state threaded through BookService operations: the drive
state, the cache map, and the trace of collaborator calls. -/
structure SvcState (σ V : Type) where
  drive : σ
  cache : List (String × CacheEntry V)
  trace : List BCall

/-- Cache key of the list cache. -/
def CACHE_KEY_LIST : String := "books:list"

/-- Cache key namespace of the search cache. -/
def CACHE_KEY_SEARCH : String := "books:search:"

/-- Translation of BookService.invalidateListCache. -/
def invalidateListCache (s : SvcState σ V) : SvcState σ V :=
  let c1 := CacheService.invalidateByPre s.cache CACHE_KEY_LIST
  { s with cache := CacheService.invalidateByPre c1 CACHE_KEY_SEARCH }

/-- The property map built by BookService.registerBook: the ownership
marker, the six schema fields with empty defaults, and description
only when non-empty. -/
def baseProperties (metadata : BookMetadata) : List (String × String) :=
  [("app_type", "my_library_book"), ("isbn", metadata.isbn), ("title", metadata.title),
    ("authors", metadata.authors), ("publisher", metadata.publisher),
    ("published_date", metadata.publishedDate)] ++
  (if metadata.description ≠ "" then [("description", metadata.description)] else [])

/-- Translation of BookService.fetchCoverImage: a failed or non-ok
fetch yields null, never a throw. -/
def fetchCoverImage (env : DriveEnv σ) (url : String) (d : σ) : Option (List Nat) × σ :=
  match env.fetchUrl url d with
  | (.error _, d2) => (none, d2)
  | (.ok none, d2) => (none, d2)
  | (.ok (some bytes), d2) => (some bytes, d2)

/-- Translation of BookService.registerBook. -/
def registerBook (env : DriveEnv σ) (metadata : BookMetadata) (fileContent : List Nat)
    (fileMimeType : String) (s : SvcState σ V) : Except String DriveFile × SvcState σ V :=
  match env.ensureMyLibraryFolder s.drive, s.trace ++ [BCall.ensureMyLibraryFolder] with
  | (.error e, d1), t1 => (.error e, { s with drive := d1, trace := t1 })
  | (.ok myLibraryId, d1), t1 =>
    let s1 : SvcState σ V := { s with drive := d1, trace := t1 }
    let firstAuthor := getFirstAuthor metadata.authors
    match env.ensureAuthorFolder myLibraryId firstAuthor s1.drive,
        s1.trace ++ [BCall.ensureAuthorFolder myLibraryId firstAuthor] with
    | (.error e, d2), t2 => (.error e, { s1 with drive := d2, trace := t2 })
    | (.ok authorFolderId, d2), t2 =>
      let s2 : SvcState σ V := { s1 with drive := d2, trace := t2 }
      let extension := getExtension fileMimeType
      let fileName := formatFileName metadata.authors metadata.title extension
      let properties := baseProperties metadata
      match env.uploadFile authorFolderId fileName fileContent fileMimeType properties s2.drive,
          s2.trace ++ [BCall.uploadFile authorFolderId fileName fileContent fileMimeType properties] with
      | (.error e, d3), t3 => (.error e, { s2 with drive := d3, trace := t3 })
      | (.ok file, d3), t3 =>
        let s3 : SvcState σ V := { s2 with drive := d3, trace := t3 }
        if metadata.coverImageUrl ≠ "" then
          match fetchCoverImage env metadata.coverImageUrl s3.drive,
              s3.trace ++ [BCall.fetchUrl metadata.coverImageUrl] with
          | (none, d4), t4 => (.ok file, invalidateListCache { s3 with drive := d4, trace := t4 })
          | (some coverData, d4), t4 =>
            let s4 : SvcState σ V := { s3 with drive := d4, trace := t4 }
            let coverFileName := "cover_" ++ file.id ++ ".jpg"
            match env.uploadCoverImage authorFolderId coverFileName coverData "image/jpeg" s4.drive,
                s4.trace ++ [BCall.uploadCoverImage authorFolderId coverFileName coverData "image/jpeg"] with
            | (.error _, d5), t5 =>
              (.ok file, invalidateListCache { s4 with drive := d5, trace := t5 })
            | (.ok coverFile, d5), t5 =>
              let s5 : SvcState σ V := { s4 with drive := d5, trace := t5 }
              let props2 := setProp properties "cover_file_id" coverFile.id
              match env.updateFileProperties file.id props2 s5.drive,
                  s5.trace ++ [BCall.updateFileProperties file.id props2] with
              | (.error _, d6), t6 =>
                (.ok file, invalidateListCache { s5 with drive := d6, trace := t6 })
              | (.ok _, d6), t6 =>
                let file2 := { file with
                  properties := setProp file.properties "cover_file_id" coverFile.id }
                (.ok file2, invalidateListCache { s5 with drive := d6, trace := t6 })
        else (.ok file, invalidateListCache s3)

/-- Translation of BookService.deleteBook. -/
def deleteBook (env : DriveEnv σ) (fileId : String) (s : SvcState σ V) :
    Except String Unit × SvcState σ V :=
  match env.getFile fileId s.drive, s.trace ++ [BCall.getFile fileId] with
  | (.error e, d1), t1 => (.error e, { s with drive := d1, trace := t1 })
  | (.ok file, d1), t1 =>
    let s1 : SvcState σ V := { s with drive := d1, trace := t1 }
    let s2 : SvcState σ V :=
      match getProp file.properties "cover_file_id" with
      | some coverId =>
        if coverId ≠ "" then
          match env.deleteFile coverId s1.drive with
          | (_, d2) => { s1 with drive := d2, trace := s1.trace ++ [BCall.deleteFile coverId] }
        else s1
      | none => s1
    match env.deleteFile fileId s2.drive, s2.trace ++ [BCall.deleteFile fileId] with
    | (.error e, d3), t3 => (.error e, { s2 with drive := d3, trace := t3 })
    | (.ok _, d3), t3 => (.ok (), invalidateListCache { s2 with drive := d3, trace := t3 })

/-- The merged property map built by BookService.updateBook from the
existing record and the supplied patch (source lines of the four
supported fields: title, authors, publisher, publishedDate). -/
def updateProps (existingFile : DriveFile) (metadata : BookMetadataPatch) :
    List (String × String) :=
  let p0 := existingFile.properties
  let p1 := match metadata.title with
    | some t => setProp p0 "title" t
    | none => p0
  let p2 := match metadata.authors with
    | some a => setProp p1 "authors" a
    | none => p1
  let p3 := match metadata.publisher with
    | some x => setProp p2 "publisher" x
    | none => p2
  match metadata.publishedDate with
  | some x => setProp p3 "published_date" x
  | none => p3

/-- The display file name recomputed by BookService.updateBook: a
supplied empty string falls back to the existing property (JS truthy
or-chains), the extension is the text after the last dot of the
current name, with epub as fallback when that text is empty. -/
def newDisplayName (existingFile : DriveFile) (metadata : BookMetadataPatch) : String :=
  formatFileName
    (optOr metadata.authors ((getProp existingFile.properties "authors").getD ""))
    (optOr metadata.title ((getProp existingFile.properties "title").getD ""))
    (strOr (String.mk ((splitOnChar '.' existingFile.name.data).getLastD [])) "epub")

/-- The author-folder move section of BookService.updateBook (the code
after the conditional rename): when authors were supplied truthy and
differ from the existing authors property, resolve or create the new
first author folder and move the record from its current first parent
when they differ; finally invalidate the list caches and return the
updated record. -/
def moveStep (env : DriveEnv σ) (fileId : String) (metadata : BookMetadataPatch)
    (existingFile updatedFile : DriveFile) (s3 : SvcState σ V) :
    Except String DriveFile × SvcState σ V :=
  match metadata.authors with
  | some a =>
    if a != "" && !(getProp existingFile.properties "authors" == some a) then
      match env.ensureMyLibraryFolder s3.drive, s3.trace ++ [BCall.ensureMyLibraryFolder] with
      | (.error e, d4), t4 => (.error e, { s3 with drive := d4, trace := t4 })
      | (.ok myLibraryId, d4), t4 =>
        let s4 : SvcState σ V := { s3 with drive := d4, trace := t4 }
        let newFirstAuthor := getFirstAuthor a
        match env.ensureAuthorFolder myLibraryId newFirstAuthor s4.drive,
            s4.trace ++ [BCall.ensureAuthorFolder myLibraryId newFirstAuthor] with
        | (.error e, d5), t5 => (.error e, { s4 with drive := d5, trace := t5 })
        | (.ok newFolderId, d5), t5 =>
          let s5 : SvcState σ V := { s4 with drive := d5, trace := t5 }
          match existingFile.parents.head? with
          | some oldFolderId =>
            if oldFolderId != "" && oldFolderId != newFolderId then
              match env.moveFile fileId newFolderId oldFolderId s5.drive,
                  s5.trace ++ [BCall.moveFile fileId newFolderId oldFolderId] with
              | (.error e, d6), t6 => (.error e, { s5 with drive := d6, trace := t6 })
              | (.ok _, d6), t6 =>
                (.ok updatedFile, invalidateListCache { s5 with drive := d6, trace := t6 })
            else (.ok updatedFile, invalidateListCache s5)
          | none => (.ok updatedFile, invalidateListCache s5)
    else (.ok updatedFile, invalidateListCache s3)
  | none => (.ok updatedFile, invalidateListCache s3)

/-- Translation of BookService.updateBook. -/
def updateBook (env : DriveEnv σ) (fileId : String) (metadata : BookMetadataPatch)
    (s : SvcState σ V) : Except String DriveFile × SvcState σ V :=
  match env.getFile fileId s.drive, s.trace ++ [BCall.getFile fileId] with
  | (.error e, d1), t1 => (.error e, { s with drive := d1, trace := t1 })
  | (.ok existingFile, d1), t1 =>
    let s1 : SvcState σ V := { s with drive := d1, trace := t1 }
    let properties := updateProps existingFile metadata
    match env.updateFileProperties fileId properties s1.drive,
        s1.trace ++ [BCall.updateFileProperties fileId properties] with
    | (.error e, d2), t2 => (.error e, { s1 with drive := d2, trace := t2 })
    | (.ok updatedFile, d2), t2 =>
      let s2 : SvcState σ V := { s1 with drive := d2, trace := t2 }
      let newFileName := newDisplayName existingFile metadata
      if newFileName = existingFile.name then
        moveStep env fileId metadata existingFile updatedFile s2
      else
        match env.renameFile fileId newFileName s2.drive,
            s2.trace ++ [BCall.renameFile fileId newFileName] with
        | (.error e, d3), t3 => (.error e, { s2 with drive := d3, trace := t3 })
        | (.ok _, d3), t3 =>
          moveStep env fileId metadata existingFile updatedFile
            { s2 with drive := d3, trace := t3 }

/-- A concrete record used by the witness environment. -/
def demoFile : DriveFile :=
  { id := "f1", name := "[太宰治] 人間失格.epub", mimeType := "application/epub+zip",
    properties := [("app_type", "my_library_book"), ("isbn", "1"), ("title", "人間失格"),
      ("authors", "太宰治"), ("publisher", "新潮社"), ("published_date", "1952-01-01"),
      ("description", "old")],
    parents := ["author_太宰治"] }

/-- A small executable drive collaborator over a list-of-files store,
used to instantiate the abstract environment in witnesses and
counterexamples. -/
def demoEnv : DriveEnv (List DriveFile) where
  ensureMyLibraryFolder := fun d => (.ok "lib", d)
  ensureAuthorFolder := fun _ name d => (.ok ("author_" ++ name), d)
  uploadFile := fun folderId fileName content mimeType properties d =>
    let f : DriveFile :=
      { id := "file_new", name := fileName, mimeType := mimeType,
        properties := properties, parents := [folderId] }
    (.ok f, d ++ [f])
  uploadCoverImage := fun folderId fileName _ mimeType d =>
    let f : DriveFile :=
      { id := "cover_new", name := fileName, mimeType := mimeType,
        properties := [], parents := [folderId] }
    (.ok f, d)
  updateFileProperties := fun fileId properties d =>
    match d.find? (fun f => f.id = fileId) with
    | some f =>
      (.ok { f with properties := properties },
        d.map (fun g => if g.id = fileId then { f with properties := properties } else g))
    | none => (.error ("File not found: " ++ fileId), d)
  renameFile := fun fileId newName d =>
    match d.find? (fun f => f.id = fileId) with
    | some f =>
      (.ok { f with name := newName },
        d.map (fun g => if g.id = fileId then { f with name := newName } else g))
    | none => (.error ("File not found: " ++ fileId), d)
  moveFile := fun fileId newFolderId oldFolderId d =>
    match d.find? (fun f => f.id = fileId) with
    | some f =>
      let f2 :=
        { f with parents := (f.parents.filter (fun p => !(p = oldFolderId))) ++ [newFolderId] }
      (.ok f2, d.map (fun g => if g.id = fileId then f2 else g))
    | none => (.error ("File not found: " ++ fileId), d)
  getFile := fun fileId d =>
    match d.find? (fun f => f.id = fileId) with
    | some f => (.ok f, d)
    | none => (.error ("File not found: " ++ fileId), d)
  getFileContent := fun _ d => (.ok [], d)
  deleteFile := fun fileId d =>
    if (d.find? (fun f => f.id = fileId)).isSome then
      (.ok (), d.filter (fun f => !(f.id = fileId)))
    else (.error ("File not found: " ++ fileId), d)
  findBookByIsbn := fun isbn d =>
    (.ok (d.find? (fun f => getProp f.properties "isbn" == some isbn)), d)
  findFilesByParent := fun folderId d =>
    (.ok (d.filter (fun f => f.parents.contains folderId)), d)
  fetchUrl := fun _ d => (.ok none, d)

/-- A service state over the demo store whose cache holds one list
entry, one search entry and one unrelated entry. -/
def demoState : SvcState (List DriveFile) Unit :=
  { drive := [demoFile],
    cache := [("books:list:0:20", ⟨(), 999⟩), ("books:search:x:", ⟨(), 999⟩),
      ("other", ⟨(), 999⟩)],
    trace := [] }

/-- A record whose display name already reflects the authors value
about to be supplied, so that an authors-only update moves the record
without renaming it. -/
def demoFile2 : DriveFile :=
  { id := "f2", name := "[B] T.epub", mimeType := "application/epub+zip",
    properties := [("app_type", "my_library_book"), ("title", "T"), ("authors", "A")],
    parents := ["author_A"] }

/-- Service state holding demoFile2. -/
def demoState2 : SvcState (List DriveFile) Unit :=
  { drive := [demoFile2], cache := [], trace := [] }

/-- demoFile2 after the authors property has been overwritten with B. -/
def demoFile2b : DriveFile :=
  { demoFile2 with properties := updateProps demoFile2 { authors := some "B" } }

/-! ## CalibreMigrator (scripts/migrate_calibre.ts)

The migration engine is embedded over the two collaborator interfaces
its constructor receives: the Drive operations it uses directly and
the two BookService operations it calls. State is the opaque drive
store σ threaded explicitly; errors are Except values and mutations
made before a throw survive it. -/

/-- Google Drive folder MIME type constant. -/
def FOLDER_MIME : String := "application/vnd.google-apps.folder"

/-- Artifact extension priority: epub, pdf, mobi, azw3, azw. -/
def EXTENSION_PRIORITY : List String := [".epub", ".pdf", ".mobi", ".azw3", ".azw"]

/-- MigrationOptions: dryRun defaults to false (undefined is falsy),
limit is optional. -/
structure MigrationOptions where
  dryRun : Bool := false
  limit : Option Nat := none
deriving Repr, DecidableEq

/-- Status of one migration unit. -/
inductive MigStatus where
  | succeeded
  | skipped
  | error
deriving Repr, DecidableEq

/-- MigrationDetail: per-unit outcome. -/
structure MigrationDetail where
  title : String
  status : MigStatus
  reason : Option String := none
deriving Repr, DecidableEq

/-- MigrationResult: the aggregate report. -/
structure MigrationResult where
  total : Nat
  succeeded : Nat
  skipped : Nat
  errors : Nat
  details : List MigrationDetail
deriving Repr, DecidableEq

/-- JS String.prototype.toLowerCase (ASCII fragment). -/
def toLowerStr (s : String) : String := String.mk (s.data.map Char.toLower)

/-- Translation of getMimeType in the migration script. -/
def getMimeType (filename : String) : String :=
  let lower := toLowerStr filename
  if strEndsWith lower ".epub" then "application/epub+zip"
  else if strEndsWith lower ".pdf" then "application/pdf"
  else if strEndsWith lower ".mobi" then "application/x-mobipocket-ebook"
  else "application/octet-stream"

/-- The extension loop of selectBookFile. -/
def selectBookFileLoop (files : List DriveFile) : List String → Option DriveFile
  | [] => none
  | ext :: rest =>
    match files.find? (fun f => strEndsWith (toLowerStr f.name) ext) with
    | some f => some f
    | none => selectBookFileLoop files rest

/-- Translation of selectBookFile: first file matching the extension
priority list wins. -/
def selectBookFile (files : List DriveFile) : Option DriveFile :=
  selectBookFileLoop files EXTENSION_PRIORITY

/-! ### parseMetadataOpf

The regex-based extraction is embedded as tag-scoped character-list
scanners with ASCII case folding, mirroring each regular expression of
the script: the open tag, an optional whitespace-prefixed attribute
section up to the first closing angle bracket, a lazy body, and the
literal close tag. -/

/-- ASCII case-insensitive character equality (the JS i flag on the
ASCII patterns used here). -/
def ciEq (a b : Char) : Bool := a.toLower == b.toLower

/-- The JS whitespace class, ASCII fragment. -/
def isJsSpace (c : Char) : Bool :=
  c = ' ' || c = '\t' || c = '\n' || c = '\r' || c = '\x0b' || c = '\x0c'

/-- Drop a case-insensitive pattern from the front of the text,
returning the remainder on success. -/
def dropCI : List Char → List Char → Option (List Char)
  | [], s => some s
  | _ :: _, [] => none
  | p :: ps, c :: cs => if ciEq c p then dropCI ps cs else none

/-- Split the text at the first case-insensitive occurrence of the
pattern: the text before, and the text after the occurrence. -/
def splitAtSubCI (pat : List Char) : List Char → Option (List Char × List Char)
  | [] =>
    match dropCI pat [] with
    | some rest => some ([], rest)
    | none => none
  | c :: cs =>
    match dropCI pat (c :: cs) with
    | some rest => some ([], rest)
    | none =>
      match splitAtSubCI pat cs with
      | some (pre, post) => some (c :: pre, post)
      | none => none

/-- The open-tag pattern of a Dublin Core tag. -/
def openTagPat (tag : List Char) : List Char :=
  '<' :: 'd' :: 'c' :: ':' :: tag

/-- The close-tag pattern of a Dublin Core tag. -/
def closeTagPat (tag : List Char) : List Char :=
  '<' :: '/' :: 'd' :: 'c' :: ':' :: tag ++ ['>']

/-- After the tag name, accept either an immediate closing angle
bracket or one whitespace character followed by non-bracket attribute
text and the closing bracket (the optional attribute group of the
regexes). -/
def dropOpenTagEnd : List Char → Option (List Char)
  | [] => none
  | c :: cs =>
    if c = '>' then some cs
    else if isJsSpace c then
      match cs.dropWhile (fun x => !(x = '>')) with
      | _ :: rest2 => some rest2
      | [] => none
    else none

/-- Scan for the first open tag of the given Dublin Core tag name,
returning the text after its closing bracket. -/
def findOpenTag (tag : List Char) : List Char → Option (List Char)
  | [] => none
  | c :: cs =>
    match dropCI (openTagPat tag) (c :: cs) with
    | some rest =>
      match dropOpenTagEnd rest with
      | some rest2 => some rest2
      | none => findOpenTag tag cs
    | none => findOpenTag tag cs

/-- The getFirst helper of parseMetadataOpf: lazy body of the first
open tag up to the close tag, trimmed; empty when absent. -/
def getFirstTag (tag : List Char) (xml : List Char) : List Char :=
  match findOpenTag tag xml with
  | none => []
  | some rest =>
    match splitAtSubCI (closeTagPat tag) rest with
    | some (body, _) => trimChars body
    | none => []

/-- The global creator collection loop: each match is an open creator
tag, a nonempty body without angle brackets, and the close tag;
scanning resumes after each match. Fuel is seeded with the text
length. -/
def collectCreatorsAux : Nat → List Char → List (List Char)
  | _, [] => []
  | 0, _ :: _ => []
  | fuel + 1, c :: cs =>
    match dropCI (openTagPat ['c', 'r', 'e', 'a', 't', 'o', 'r']) (c :: cs) with
    | some rest =>
      match dropOpenTagEnd rest with
      | some rest2 =>
        let body := rest2.takeWhile (fun x => !(x = '<'))
        let after := rest2.dropWhile (fun x => !(x = '<'))
        if body.isEmpty then collectCreatorsAux fuel cs
        else
          match dropCI (closeTagPat ['c', 'r', 'e', 'a', 't', 'o', 'r']) after with
          | some rest3 => trimChars body :: collectCreatorsAux fuel rest3
          | none => collectCreatorsAux fuel cs
      | none => collectCreatorsAux fuel cs
    | none => collectCreatorsAux fuel cs

/-- The global identifier collection loop: attribute text, nonempty
body, close tag; yields attribute text and body of each match. -/
def collectIdentsAux : Nat → List Char → List (List Char × List Char)
  | _, [] => []
  | 0, _ :: _ => []
  | fuel + 1, c :: cs =>
    match dropCI "<dc:identifier".data (c :: cs) with
    | some rest =>
      let attrs := rest.takeWhile (fun x => !(x = '>'))
      match rest.dropWhile (fun x => !(x = '>')) with
      | _ :: rest2 =>
        let body := rest2.takeWhile (fun x => !(x = '<'))
        let after := rest2.dropWhile (fun x => !(x = '<'))
        if body.isEmpty then collectIdentsAux fuel cs
        else
          match dropCI "</dc:identifier>".data after with
          | some rest3 => (attrs, body) :: collectIdentsAux fuel rest3
          | none => collectIdentsAux fuel cs
      | [] => collectIdentsAux fuel cs
    | none => collectIdentsAux fuel cs

/-- Test for the opf scheme attribute: scheme name, optional spaces,
an equals sign, optional spaces, a quote, the isbn keyword, a quote
(all case-insensitive). -/
def hasIsbnScheme : List Char → Bool
  | [] => false
  | c :: cs =>
    match dropCI "opf:scheme".data (c :: cs) with
    | some rest =>
      let r1 := rest.dropWhile isJsSpace
      match r1 with
      | '=' :: r2 =>
        let r3 := r2.dropWhile isJsSpace
        match r3 with
        | q :: r4 =>
          if q = '"' || q = '\x27' then
            match dropCI "isbn".data r4 with
            | some (q2 :: _) =>
              if q2 = '"' || q2 = '\x27' then true else hasIsbnScheme cs
            | _ => hasIsbnScheme cs
          else hasIsbnScheme cs
        | [] => hasIsbnScheme cs
      | _ => hasIsbnScheme cs
    | none => hasIsbnScheme cs

/-- The identifier loop of parseMetadataOpf: first identifier carrying
the ISBN scheme wins; hyphens and whitespace are removed from its
trimmed body. -/
def findIsbn : List (List Char × List Char) → List Char
  | [] => []
  | (attrs, body) :: rest =>
    if hasIsbnScheme attrs then
      (trimChars body).filter (fun c => !(c = '-' || isJsSpace c))
    else findIsbn rest

/-- Translation of parseMetadataOpf: every field of the returned
object is present, defaulting to the empty string. -/
def parseMetadataOpf (xml : List Char) : BookMetadataPatch :=
  let creators := collectCreatorsAux xml.length xml
  let isbn := findIsbn (collectIdentsAux xml.length xml)
  let rawDate := getFirstTag ['d', 'a', 't', 'e'] xml
  let publishedDate :=
    if rawDate.isEmpty then [] else rawDate.takeWhile (fun c => !(c = 'T'))
  { isbn := some (String.mk isbn)
    title := some (String.mk (getFirstTag ['t', 'i', 't', 'l', 'e'] xml))
    authors := some (if creators.isEmpty then
        String.mk (getFirstTag ['c', 'r', 'e', 'a', 't', 'o', 'r'] xml)
      else String.mk ((creators.intersperse ['-']).flatten))
    publisher := some (String.mk (getFirstTag "publisher".data xml))
    publishedDate := some (String.mk publishedDate)
    description := some (String.mk (getFirstTag "description".data xml))
    coverImageUrl := some "" }

/-- The GoogleDriveService operations used directly by
CalibreMigrator. -/
structure MigDriveEnv (σ : Type) where
  findFilesByParent : String → σ → Except String (List DriveFile) × σ
  getFileContent : String → σ → Except String (List Nat) × σ
  uploadCoverImage : String → String → List Nat → String → σ → Except String DriveFile × σ
  updateFileProperties : String → List (String × String) → σ → Except String DriveFile × σ

/-- The BookService operations used by CalibreMigrator. -/
structure MigBookEnv (σ : Type) where
  findBookByIsbn : String → σ → Except String (Option DriveFile) × σ
  registerBook : BookMetadata → List Nat → String → σ → Except String DriveFile × σ

/-- The metadata.opf reading step of migrateBook (find the document
among the children, download and parse it; an absent document yields
the empty patch). -/
def readOpfMetadata (denv : MigDriveEnv σ) (files : List DriveFile) (d : σ) :
    Except String BookMetadataPatch × σ :=
  match files.find? (fun f => f.name = "metadata.opf") with
  | some opfFile =>
    match denv.getFileContent opfFile.id d with
    | (.error e, d2) => (.error e, d2)
    | (.ok content, d2) => (.ok (parseMetadataOpf (utf8Decode content)), d2)
  | none => (.ok {}, d)

/-- The tail of migrateBook after the duplicate-ISBN check: artifact
selection, dry-run exit, download, registration, and the swallowed
cover step. -/
def migrateBookRest (denv : MigDriveEnv σ) (benv : MigBookEnv σ)
    (options : MigrationOptions) (files : List DriveFile)
    (metadata : BookMetadataPatch) (title : String) (d : σ) :
    Except String MigrationDetail × σ :=
  match selectBookFile files with
  | none => (.ok ⟨title, .skipped, some "対応形式の書籍ファイルなし"⟩, d)
  | some bookFile =>
    if options.dryRun then (.ok ⟨title, .succeeded, none⟩, d)
    else
      match denv.getFileContent bookFile.id d with
      | (.error e, d1) => (.error e, d1)
      | (.ok bookContent, d1) =>
        let bookMimeType := getMimeType bookFile.name
        let fullMetadata : BookMetadata :=
          { isbn := optOr metadata.isbn "", title := title,
            authors := optOr metadata.authors "",
            publisher := optOr metadata.publisher "",
            publishedDate := optOr metadata.publishedDate "",
            description := optOr metadata.description "",
            coverImageUrl := "" }
        match benv.registerBook fullMetadata bookContent bookMimeType d1 with
        | (.error e, d2) => (.error e, d2)
        | (.ok registeredFile, d2) =>
          match files.find? (fun f => f.name = "cover.jpg") with
          | none => (.ok ⟨title, .succeeded, none⟩, d2)
          | some coverFile =>
            match denv.getFileContent coverFile.id d2 with
            | (.error _, d3) => (.ok ⟨title, .succeeded, none⟩, d3)
            | (.ok coverData, d3) =>
              let authorFolderId := registeredFile.parents.headD ""
              let coverFileName := "cover_" ++ registeredFile.id ++ ".jpg"
              match denv.uploadCoverImage authorFolderId coverFileName coverData
                  "image/jpeg" d3 with
              | (.error _, d4) => (.ok ⟨title, .succeeded, none⟩, d4)
              | (.ok coverDriveFile, d4) =>
                match denv.updateFileProperties registeredFile.id
                    (setProp registeredFile.properties "cover_file_id"
                      coverDriveFile.id) d4 with
                | (_, d5) => (.ok ⟨title, .succeeded, none⟩, d5)

/-- Translation of CalibreMigrator.migrateBook. -/
def migrateBook (denv : MigDriveEnv σ) (benv : MigBookEnv σ)
    (options : MigrationOptions) (bookFolderId bookFolderName : String) (d : σ) :
    Except String MigrationDetail × σ :=
  match denv.findFilesByParent bookFolderId d with
  | (.error e, d1) => (.error e, d1)
  | (.ok files, d1) =>
    match readOpfMetadata denv files d1 with
    | (.error e, d2) => (.error e, d2)
    | (.ok metadata, d2) =>
      let title := optOr metadata.title bookFolderName
      match metadata.isbn with
      | some isbn =>
        if isbn ≠ "" then
          match benv.findBookByIsbn isbn d2 with
          | (.error e, d3) => (.error e, d3)
          | (.ok (some _), d3) => (.ok ⟨title, .skipped, some "ISBN重複"⟩, d3)
          | (.ok none, d3) => migrateBookRest denv benv options files metadata title d3
        else migrateBookRest denv benv options files metadata title d2
      | none => migrateBookRest denv benv options files metadata title d2

/-- The empty aggregate report. -/
def emptyResult : MigrationResult := ⟨0, 0, 0, 0, []⟩

/-- Record a detail in the aggregate: push it and bump the counter of
its status. -/
def recordDetail (acc : MigrationResult) (detail : MigrationDetail) : MigrationResult :=
  { acc with
    details := acc.details ++ [detail]
    succeeded := if detail.status = .succeeded then acc.succeeded + 1 else acc.succeeded
    skipped := if detail.status = .skipped then acc.skipped + 1 else acc.skipped
    errors := if detail.status = .error then acc.errors + 1 else acc.errors }

/-- The limit test of the book loop. -/
def limitReached (options : MigrationOptions) (total : Nat) : Bool :=
  match options.limit with
  | some l => total ≥ l
  | none => false

/-- The inner book-folder loop of CalibreMigrator.migrate: the Bool
result signals the labelled break of the outer walk when the limit is
reached; the try/catch around migrateBook converts a unit failure into
an error detail and continues. -/
def processBooks (denv : MigDriveEnv σ) (benv : MigBookEnv σ)
    (options : MigrationOptions) :
    List DriveFile → MigrationResult → σ → MigrationResult × σ × Bool
  | [], acc, d => (acc, d, false)
  | bf :: rest, acc, d =>
    if bf.mimeType ≠ FOLDER_MIME then processBooks denv benv options rest acc d
    else if limitReached options acc.total then (acc, d, true)
    else
      let acc1 := { acc with total := acc.total + 1 }
      match migrateBook denv benv options bf.id bf.name d with
      | (.ok detail, d2) =>
        processBooks denv benv options rest (recordDetail acc1 detail) d2
      | (.error e, d2) =>
        processBooks denv benv options rest
          (recordDetail acc1 ⟨bf.name, .error, some e⟩) d2

/-- The outer author-folder loop of CalibreMigrator.migrate: a failed
child listing aborts the walk with the error; the break signal of the
inner loop ends the walk returning the report so far. -/
def processAuthors (denv : MigDriveEnv σ) (benv : MigBookEnv σ)
    (options : MigrationOptions) :
    List DriveFile → MigrationResult → σ → Except String MigrationResult × σ × Bool
  | [], acc, d => (.ok acc, d, false)
  | af :: rest, acc, d =>
    if af.mimeType ≠ FOLDER_MIME then processAuthors denv benv options rest acc d
    else
      match denv.findFilesByParent af.id d with
      | (.error e, d1) => (.error e, d1, false)
      | (.ok bookFolders, d1) =>
        match processBooks denv benv options bookFolders acc d1 with
        | (acc2, d2, true) => (.ok acc2, d2, true)
        | (acc2, d2, false) => processAuthors denv benv options rest acc2 d2

/-- Translation of CalibreMigrator.migrate. -/
def migrate (denv : MigDriveEnv σ) (benv : MigBookEnv σ)
    (options : MigrationOptions) (sourceFolderId : String) (d : σ) :
    Except String MigrationResult × σ :=
  match denv.findFilesByParent sourceFolderId d with
  | (.error e, d1) => (.error e, d1)
  | (.ok authorFolders, d1) =>
    match processAuthors denv benv options authorFolders emptyResult d1 with
    | (r, d2, _) => (r, d2)

/-! ### Pure discovery walk (for the ordering claim)

When listings are pure reads, the units the run processes are
determined by the folder tree alone: discoverBooks and discoverAuthors
mirror the two loops of migrate without processing, collecting the
book folders in the exact discovery order, subject to the limit and
its labelled break. -/

/-- The book folders one author contributes, in listing order, with
the updated running total and the break signal. -/
def discoverBooks (options : MigrationOptions) :
    List DriveFile → Nat → List DriveFile × Nat × Bool
  | [], count => ([], count, false)
  | bf :: rest, count =>
    if bf.mimeType ≠ FOLDER_MIME then discoverBooks options rest count
    else if limitReached options count then ([], count, true)
    else
      (bf :: (discoverBooks options rest (count + 1)).1,
       (discoverBooks options rest (count + 1)).2)

/-- The units of the whole walk under a pure listing function. -/
def discoverAuthors (pf : String → Except String (List DriveFile))
    (options : MigrationOptions) :
    List DriveFile → Nat → Except String (List DriveFile) × Bool
  | [], _ => (.ok [], false)
  | af :: rest, count =>
    if af.mimeType ≠ FOLDER_MIME then discoverAuthors pf options rest count
    else
      match pf af.id with
      | .error e => (.error e, false)
      | .ok bookFolders =>
        if (discoverBooks options bookFolders count).2.2 then
          (.ok (discoverBooks options bookFolders count).1, true)
        else
          match discoverAuthors pf options rest
              (discoverBooks options bookFolders count).2.1 with
          | (.ok more, b) => (.ok ((discoverBooks options bookFolders count).1 ++ more), b)
          | (.error e, b) => (.error e, b)

/-- Sequential processing of a unit list: the details in order, with
the final drive state (the try/catch conversion included). -/
def runUnits (denv : MigDriveEnv σ) (benv : MigBookEnv σ)
    (options : MigrationOptions) :
    List DriveFile → σ → List MigrationDetail × σ
  | [], d => ([], d)
  | bf :: rest, d =>
    match migrateBook denv benv options bf.id bf.name d with
    | (.ok detail, d2) =>
      (detail :: (runUnits denv benv options rest d2).1,
       (runUnits denv benv options rest d2).2)
    | (.error e, d2) =>
      (⟨bf.name, .error, some e⟩ :: (runUnits denv benv options rest d2).1,
       (runUnits denv benv options rest d2).2)

/-- Fold a detail list into an aggregate exactly as the book loop
does: bump total, push, bump the status counter. -/
def foldDetails (acc : MigrationResult) (l : List MigrationDetail) : MigrationResult :=
  l.foldl (fun a dt => recordDetail { a with total := a.total + 1 } dt) acc

/-- The whole discovery walk from the source folder. -/
def discoverWalk (pf : String → Except String (List DriveFile))
    (options : MigrationOptions) (sourceFolderId : String) :
    Except String (List DriveFile) × Bool :=
  match pf sourceFolderId with
  | .error e => (.error e, false)
  | .ok authorFolders => discoverAuthors pf options authorFolders 0

/-! ### Concrete migration fixtures -/

/-- A folder entry of the Calibre tree. -/
def migFolder (i n : String) : DriveFile :=
  { id := i, name := n, mimeType := FOLDER_MIME, properties := [], parents := [] }

/-- A plain file entry of the Calibre tree. -/
def migFile (i n : String) : DriveFile :=
  { id := i, name := n, mimeType := "application/epub+zip", properties := [],
    parents := [] }

/-- The file the concrete registration step returns. -/
def migReg : DriveFile :=
  { id := "reg1", name := "[A] 本1.epub", mimeType := "application/epub+zip",
    properties := [], parents := ["authorReg"] }

/-- Pure listing function of the three-author demo tree: one unit
succeeds, one unit's book-folder listing throws, one unit has no
supported artifact. -/
def c2pf : String → Except String (List DriveFile) := fun id =>
  if id = "source" then
    .ok [migFolder "af1" "著者1", migFolder "af2" "著者2", migFolder "af3" "著者3"]
  else if id = "af1" then .ok [migFolder "bf1" "本1"]
  else if id = "af2" then .ok [migFolder "bf2" "本2"]
  else if id = "af3" then .ok [migFolder "bf3" "本3"]
  else if id = "bf1" then .ok [migFile "file1" "本1.epub"]
  else if id = "bf2" then .error "API Error"
  else if id = "bf3" then .ok [migFile "file3" "notes.txt"]
  else .ok []

/-- Drive environment of the demo tree: listings are pure reads. -/
def c2denv : MigDriveEnv (List BookMetadata) :=
  { findFilesByParent := fun id d => (c2pf id, d)
    getFileContent := fun _ d => (.ok [1, 2], d)
    uploadCoverImage := fun _ _ _ _ d => (.ok migReg, d)
    updateFileProperties := fun _ _ d => (.ok migReg, d) }

/-- BookService environment of the demo tree: the store is the list of
registered metadata records. -/
def c2benv : MigBookEnv (List BookMetadata) :=
  { findBookByIsbn := fun _ d => (.ok none, d)
    registerBook := fun m _ _ d => (.ok migReg, d ++ [m]) }

/-- The aggregate the demo run produces. -/
def c2result : MigrationResult :=
  ⟨3, 1, 1, 1,
    [⟨"本1", .succeeded, none⟩,
     ⟨"本2", .error, some "API Error"⟩,
     ⟨"本3", .skipped, some "対応形式の書籍ファイルなし"⟩]⟩

/-- The store the demo run leaves behind: the one registered record. -/
def c2store : List BookMetadata := [⟨"", "本1", "", "", "", "", ""⟩]

/-- A dry-run unit folder containing one supported artifact. -/
def c9file : DriveFile := migFile "file9" "dry.epub"

/-- Drive environment of the dry-run demo. -/
def c9denv : MigDriveEnv (List BookMetadata) :=
  { findFilesByParent := fun _ d => (.ok [c9file], d)
    getFileContent := fun _ d => (.ok [], d)
    uploadCoverImage := fun _ _ _ _ d => (.error "unused", d)
    updateFileProperties := fun _ _ d => (.error "unused", d) }

/-- BookService environment of the dry-run demo. -/
def c9benv : MigBookEnv (List BookMetadata) :=
  { findBookByIsbn := fun _ d => (.ok none, d)
    registerBook := fun m _ _ d => (.ok migReg, d ++ [m]) }

/-- Drive environment whose root listing fails for the unknown source
id and otherwise behaves like the demo tree. -/
def c10denv : MigDriveEnv (List BookMetadata) :=
  { c2denv with
    findFilesByParent := fun id d =>
      (if id = "badsource" then .error "root listing failed" else c2pf id, d) }

/-- Listing function of a tree whose second author folder cannot be
listed. -/
def c10pf2 : String → Except String (List DriveFile) := fun id =>
  if id = "source" then .ok [migFolder "af1" "著者1", migFolder "afX" "著者X"]
  else if id = "afX" then .error "author listing failed"
  else c2pf id

/-- Drive environment over that tree. -/
def c10denv2 : MigDriveEnv (List BookMetadata) :=
  { c2denv with findFilesByParent := fun id d => (c10pf2 id, d) }

/-! ## Theorems -/

/-- Once the accumulator is non-null, the loop keeps it non-null and
never changes isbn or title, and keeps every already non-empty
fill-candidate field. -/
theorem fetchLoop_preserves (svcs : List (Except String (Option BookMetadata)))
    (acc : BookMetadata) :
    ∃ r n, CompositeMetadataService.fetchLoop svcs (some acc) = (some r, n) ∧
      r.isbn = acc.isbn ∧ r.title = acc.title ∧
      (acc.authors ≠ "" → r.authors = acc.authors) ∧
      (acc.publisher ≠ "" → r.publisher = acc.publisher) ∧
      (acc.publishedDate ≠ "" → r.publishedDate = acc.publishedDate) ∧
      (acc.description ≠ "" → r.description = acc.description) ∧
      (acc.coverImageUrl ≠ "" → r.coverImageUrl = acc.coverImageUrl) := by
  induction svcs generalizing acc with
  | nil => exact ⟨acc, 0, rfl, rfl, rfl, fun _ => rfl, fun _ => rfl, fun _ => rfl,
      fun _ => rfl, fun _ => rfl⟩
  | cons svc rest ih =>
    match svc with
    | .error e =>
      obtain ⟨r, n, hEq, h1, h2, h3, h4, h5, h6, h7⟩ := ih acc
      exact ⟨r, n + 1, by simp [CompositeMetadataService.fetchLoop, hEq],
        h1, h2, h3, h4, h5, h6, h7⟩
    | .ok none =>
      obtain ⟨r, n, hEq, h1, h2, h3, h4, h5, h6, h7⟩ := ih acc
      exact ⟨r, n + 1, by simp [CompositeMetadataService.fetchLoop, hEq],
        h1, h2, h3, h4, h5, h6, h7⟩
    | .ok (some cur) =>
      by_cases hc : CompositeMetadataService.isComplete
          (CompositeMetadataService.merge acc cur) = true
      · refine ⟨CompositeMetadataService.merge acc cur, 1, ?_, rfl, rfl, ?_, ?_, ?_, ?_, ?_⟩
        · simp [CompositeMetadataService.fetchLoop, hc]
        all_goals
          intro h
          simp [CompositeMetadataService.merge, strOr, h]
      · obtain ⟨r, n, hEq, h1, h2, h3, h4, h5, h6, h7⟩ :=
          ih (CompositeMetadataService.merge acc cur)
        refine ⟨r, n + 1, ?_, ?_, ?_, ?_, ?_, ?_, ?_, ?_⟩
        · simp [CompositeMetadataService.fetchLoop, hc, hEq]
        · exact h1
        · exact h2
        all_goals
          intro h
          first
          | exact (h3 (by simp [CompositeMetadataService.merge, strOr, h])).trans
              (by simp [CompositeMetadataService.merge, strOr, h])
          | exact (h4 (by simp [CompositeMetadataService.merge, strOr, h])).trans
              (by simp [CompositeMetadataService.merge, strOr, h])
          | exact (h5 (by simp [CompositeMetadataService.merge, strOr, h])).trans
              (by simp [CompositeMetadataService.merge, strOr, h])
          | exact (h6 (by simp [CompositeMetadataService.merge, strOr, h])).trans
              (by simp [CompositeMetadataService.merge, strOr, h])
          | exact (h7 (by simp [CompositeMetadataService.merge, strOr, h])).trans
              (by simp [CompositeMetadataService.merge, strOr, h])

/-- C1: in CompositeMetadataService.fetchByIsbn, merging a later
non-null result into the accumulator keeps the accumulator value of
each of authors, publisher, publishedDate, description and
coverImageUrl whenever it is non-empty and adopts the later value only
when it is empty, and isbn and title always keep the accumulator
values; consequently, across the whole remaining source loop a later
source never overwrites a non-empty field of the accumulator and never
changes isbn or title. -/
theorem C1_merge_only_fills_gaps :
    (∀ p s : BookMetadata,
      (CompositeMetadataService.merge p s).isbn = p.isbn ∧
      (CompositeMetadataService.merge p s).title = p.title ∧
      (CompositeMetadataService.merge p s).authors =
        (if p.authors = "" then s.authors else p.authors) ∧
      (CompositeMetadataService.merge p s).publisher =
        (if p.publisher = "" then s.publisher else p.publisher) ∧
      (CompositeMetadataService.merge p s).publishedDate =
        (if p.publishedDate = "" then s.publishedDate else p.publishedDate) ∧
      (CompositeMetadataService.merge p s).description =
        (if p.description = "" then s.description else p.description) ∧
      (CompositeMetadataService.merge p s).coverImageUrl =
        (if p.coverImageUrl = "" then s.coverImageUrl else p.coverImageUrl)) ∧
    (∀ svcs (acc r : BookMetadata) n,
      CompositeMetadataService.fetchLoop svcs (some acc) = (some r, n) →
      r.isbn = acc.isbn ∧ r.title = acc.title ∧
      (acc.authors ≠ "" → r.authors = acc.authors) ∧
      (acc.publisher ≠ "" → r.publisher = acc.publisher) ∧
      (acc.publishedDate ≠ "" → r.publishedDate = acc.publishedDate) ∧
      (acc.description ≠ "" → r.description = acc.description) ∧
      (acc.coverImageUrl ≠ "" → r.coverImageUrl = acc.coverImageUrl)) := by
  constructor
  · intro p s
    refine ⟨rfl, rfl, ?_, ?_, ?_, ?_, ?_⟩ <;>
      simp [CompositeMetadataService.merge, strOr]
  · intro svcs acc r n hEq
    obtain ⟨r2, n2, hEq2, h1, h2, h3, h4, h5, h6, h7⟩ := fetchLoop_preserves svcs acc
    rw [hEq] at hEq2
    have hr : r = r2 := by
      have := congrArg Prod.fst hEq2
      simpa using this
    subst hr
    exact ⟨h1, h2, h3, h4, h5, h6, h7⟩

/-- Witness for C1 at a concrete input: the first source gives a record
whose authors field is non-empty, the second source is merged in, and
authors keeps the first value. -/
theorem C1_merge_only_fills_gaps_witness :
    (CompositeMetadataService.merge
        ⟨"i1", "t1", "a1", "p1", "", "", ""⟩
        ⟨"i2", "t2", "a2", "p2", "pd2", "d2", "c2"⟩).authors = "a1" := by
  have h := C1_merge_only_fills_gaps
  have h2 := (h.2 [Except.ok (some ⟨"i2", "t2", "a2", "p2", "pd2", "d2", "c2"⟩)]
    ⟨"i1", "t1", "a1", "p1", "", "", ""⟩
    ⟨"i1", "t1", "a1", "p1", "pd2", "d2", "c2"⟩ 1 (by decide))
  exact h2.2.2.1 (by decide)

/-- C5: a source whose result makes the accumulator complete on all
five fill-candidate fields ends the loop at once: exactly one source of
the remaining list is queried, whatever sources follow; in particular
when the first source alone returns a complete result, fetchByIsbn
returns it after querying exactly one source, so the second source is
never called. -/
theorem C5_completeness_short_circuit :
    (∀ (cur : BookMetadata) (rest : List (Except String (Option BookMetadata)))
        (acc : Option BookMetadata) (merged : BookMetadata),
      merged = (match acc with
        | none => cur
        | some a => CompositeMetadataService.merge a cur) →
      CompositeMetadataService.isComplete merged = true →
      CompositeMetadataService.fetchLoop (Except.ok (some cur) :: rest) acc =
        (some merged, 1)) ∧
    (∀ (m : BookMetadata) (rest : List (Except String (Option BookMetadata))),
      CompositeMetadataService.isComplete m = true →
      CompositeMetadataService.fetchByIsbn (Except.ok (some m) :: rest) = some m ∧
      CompositeMetadataService.fetchCalls (Except.ok (some m) :: rest) = 1) := by
  constructor
  · intro cur rest acc merged hm hc
    match acc with
    | none =>
      simp at hm
      subst hm
      simp [CompositeMetadataService.fetchLoop, hc]
    | some a =>
      simp at hm
      subst hm
      simp [CompositeMetadataService.fetchLoop, hc]
  · intro m rest hc
    constructor
    · simp [CompositeMetadataService.fetchByIsbn, CompositeMetadataService.fetchLoop, hc]
    · simp [CompositeMetadataService.fetchCalls, CompositeMetadataService.fetchLoop, hc]

/-- Witness for C5 at a concrete input: a complete first result stops
the loop after one query even with a second source present. -/
theorem C5_completeness_short_circuit_witness :
    CompositeMetadataService.fetchByIsbn
        [Except.ok (some ⟨"i", "t", "a", "p", "pd", "d", "c"⟩),
         Except.ok (some ⟨"x", "y", "z", "w", "v", "u", "s"⟩)] =
      some ⟨"i", "t", "a", "p", "pd", "d", "c"⟩ ∧
    CompositeMetadataService.fetchCalls
        [Except.ok (some ⟨"i", "t", "a", "p", "pd", "d", "c"⟩),
         Except.ok (some ⟨"x", "y", "z", "w", "v", "u", "s"⟩)] = 1 :=
  C5_completeness_short_circuit.2 ⟨"i", "t", "a", "p", "pd", "d", "c"⟩
    [Except.ok (some ⟨"x", "y", "z", "w", "v", "u", "s"⟩)] (by decide)

/-- Every Unicode scalar value is below 0x110000. -/
theorem char_toNat_lt (c : Char) : c.toNat < 1114112 := by
  have h := c.valid
  rcases h with h | ⟨h1, h2⟩
  · exact Nat.lt_trans h (by norm_num)
  · exact h2

set_option maxRecDepth 10000 in
/-- On bytes, the continuation test is the interval test 128 ≤ b < 192. -/
theorem isCont_eq_range (b : Nat) (hb : b < 256) :
    isCont b = decide (128 ≤ b ∧ b < 192) := by
  revert hb
  revert b
  decide

/-- Shape of a UTF-8 character block: nonempty, its head is not a
continuation byte, every other byte is one, and all bytes are below
256. -/
theorem utf8Bytes_shape (c : Char) :
    ∃ b t, utf8Bytes c = b :: t ∧ isCont b = false ∧
      (∀ x ∈ t, isCont x = true) ∧ ∀ x ∈ b :: t, x < 256 := by
  have hv := char_toNat_lt c
  unfold utf8Bytes
  by_cases h1 : c.toNat < 0x80
  · refine ⟨c.toNat, [], by simp [h1], ?_, by simp, by simp; omega⟩
    rw [isCont_eq_range _ (by omega)]
    simp only [decide_eq_true_eq, decide_eq_false_iff_not, not_and, not_lt]
    omega
  · by_cases h2 : c.toNat < 0x800
    · refine ⟨0xC0 + c.toNat / 64, [0x80 + c.toNat % 64], by simp [h1, h2], ?_, ?_, ?_⟩
      · rw [isCont_eq_range _ (by omega)]
        simp only [decide_eq_true_eq, decide_eq_false_iff_not, not_and, not_lt]
        omega
      · intro x hx
        simp at hx
        subst hx
        rw [isCont_eq_range _ (by omega)]
        simp only [decide_eq_true_eq, decide_eq_false_iff_not, not_and, not_lt]
        omega
      · intro x hx
        simp at hx
        rcases hx with h | h <;> omega
    · by_cases h3 : c.toNat < 0x10000
      · refine ⟨0xE0 + c.toNat / 4096,
          [0x80 + c.toNat / 64 % 64, 0x80 + c.toNat % 64], by simp [h1, h2, h3], ?_, ?_, ?_⟩
        · rw [isCont_eq_range _ (by omega)]
          simp
          omega
        · intro x hx
          simp at hx
          rcases hx with h | h <;>
          · subst h
            rw [isCont_eq_range _ (by omega)]
            simp only [decide_eq_true_eq, decide_eq_false_iff_not, not_and, not_lt]
            omega
        · intro x hx
          simp at hx
          rcases hx with h | h | h <;> omega
      · refine ⟨0xF0 + c.toNat / 262144,
          [0x80 + c.toNat / 4096 % 64, 0x80 + c.toNat / 64 % 64, 0x80 + c.toNat % 64],
          by simp [h1, h2, h3], ?_, ?_, ?_⟩
        · rw [isCont_eq_range _ (by omega)]
          simp
          omega
        · intro x hx
          simp at hx
          rcases hx with h | h | h <;>
          · subst h
            rw [isCont_eq_range _ (by omega)]
            simp only [decide_eq_true_eq, decide_eq_false_iff_not, not_and, not_lt]
            omega
        · intro x hx
          simp at hx
          rcases hx with h | h | h | h <;> omega

theorem encodeStr_nil : encodeStr [] = [] := rfl

theorem encodeStr_cons (c : Char) (cs : List Char) :
    encodeStr (c :: cs) = utf8Bytes c ++ encodeStr cs := by
  simp [encodeStr]

theorem encodeStr_append (a b : List Char) :
    encodeStr (a ++ b) = encodeStr a ++ encodeStr b := by
  simp [encodeStr]

theorem utf8Bytes_length_pos (c : Char) : 0 < (utf8Bytes c).length := by
  obtain ⟨b, t, h, -, -, -⟩ := utf8Bytes_shape c
  simp [h]

/-- The first byte of a nonempty encoded string is not a continuation
byte. -/
theorem encodeStr_head_not_cont (cs : List Char) (h : cs ≠ []) :
    isCont ((encodeStr cs).getD 0 0) = false := by
  match cs with
  | [] => exact absurd rfl h
  | c :: rest =>
    obtain ⟨b, t, hb, hnc, -, -⟩ := utf8Bytes_shape c
    rw [encodeStr_cons, hb]
    simpa using hnc

/-- Walking back from any position inside the first character block of
an encoded string lands at position 0. -/
theorem walkBack_in_first_block (c : Char) (tailBytes : List Nat) (m : Nat)
    (hm : m < (utf8Bytes c).length) :
    walkBack (utf8Bytes c ++ tailBytes) m = 0 := by
  induction m with
  | zero => rfl
  | succ m ih =>
    have hm' : m < (utf8Bytes c).length := Nat.lt_of_succ_lt hm
    obtain ⟨b, t, hb, hnc, hcont, hlt⟩ := utf8Bytes_shape c
    have hidx : (utf8Bytes c ++ tailBytes).getD (m + 1) 0 = (utf8Bytes c).getD (m + 1) 0 :=
      List.getD_append _ _ _ _ hm
    have hmem : (utf8Bytes c).getD (m + 1) 0 ∈ t := by
      rw [hb]
      simp only [List.getD_cons_succ]
      have hmt : m < t.length := by
        rw [hb] at hm
        simpa using hm
      rw [List.getD_eq_getElem _ _ hmt]
      exact List.getElem_mem hmt
    have hcontb : isCont ((utf8Bytes c ++ tailBytes).getD (m + 1) 0) = true := by
      rw [hidx]
      exact hcont _ hmem
    show walkBack _ (m + 1) = 0
    rw [walkBack, hcontb]
    simpa using ih hm'

/-- Walking back from a position at or beyond the end of the first
block never crosses back into the block, provided the remainder opens
with a non-continuation byte. -/
theorem walkBack_append_block (blockBytes restBytes : List Nat) (j : Nat)
    (hne : blockBytes ≠ [])
    (h0 : isCont (restBytes.getD 0 0) = false) :
    walkBack (blockBytes ++ restBytes) (blockBytes.length + j) =
      blockBytes.length + walkBack restBytes j := by
  induction j with
  | zero =>
    have hpos : 0 < blockBytes.length := List.length_pos.mpr hne
    obtain ⟨k, hk⟩ : ∃ k, blockBytes.length = k + 1 := ⟨blockBytes.length - 1, by omega⟩
    have hbyte : (blockBytes ++ restBytes).getD (k + 1) 0 = restBytes.getD 0 0 := by
      rw [List.getD_append_right _ _ _ _ (by omega)]
      congr 1
      omega
    have hr0 : walkBack restBytes 0 = 0 := rfl
    rw [hr0, Nat.add_zero, hk, walkBack, hbyte, h0]
    simp
  | succ j ih =>
    have hbyte : (blockBytes ++ restBytes).getD (blockBytes.length + j + 1) 0 =
        restBytes.getD (j + 1) 0 := by
      rw [List.getD_append_right _ _ _ _ (by omega)]
      congr 1
      omega
    have hL : blockBytes.length + (j + 1) = blockBytes.length + j + 1 := by omega
    rw [hL, walkBack, hbyte]
    cases hcc : isCont (restBytes.getD (j + 1) 0)
    · have hrhs : walkBack restBytes (j + 1) = j + 1 := by
        rw [walkBack, hcc]
        simp
      rw [hrhs]
      simp [hcc]
      omega
    · have hrhs : walkBack restBytes (j + 1) = walkBack restBytes j := by
        rw [walkBack, hcc]
        simp
      rw [hrhs]
      simp only [hcc, if_true]
      exact ih

/-- The walk-back position computed by truncateToBytes is always the
byte length of the encoding of a character-level prefix, and that
length fits under the cut position. -/
theorem walkBack_encode (cs : List Char) (m : Nat) (hm : m < (encodeStr cs).length) :
    ∃ n, walkBack (encodeStr cs) m = (encodeStr (cs.take n)).length ∧
      (encodeStr (cs.take n)).length ≤ m := by
  induction cs generalizing m with
  | nil => simp [encodeStr] at hm
  | cons c rest ih =>
    rw [encodeStr_cons] at hm ⊢
    by_cases hlt : m < (utf8Bytes c).length
    · refine ⟨0, ?_, ?_⟩
      · rw [walkBack_in_first_block c _ m hlt]
        simp [encodeStr]
      · simp [encodeStr]
    · push_neg at hlt
      have hmrest : m - (utf8Bytes c).length < (encodeStr rest).length := by
        rw [List.length_append] at hm
        omega
      have hrestne : rest ≠ [] := by
        intro h
        subst h
        simp [encodeStr] at hmrest
      obtain ⟨n, hw, hle⟩ := ih (m - (utf8Bytes c).length) hmrest
      have hblockne : utf8Bytes c ≠ [] := by
        have := utf8Bytes_length_pos c
        intro h
        simp [h] at this
      have hj : m = (utf8Bytes c).length + (m - (utf8Bytes c).length) := by omega
      refine ⟨n + 1, ?_, ?_⟩
      · rw [hj, walkBack_append_block _ _ _ hblockne
          (encodeStr_head_not_cont rest hrestne), hw]
        simp [List.take_succ_cons, encodeStr_cons]
      · rw [List.take_succ_cons, encodeStr_cons, List.length_append]
        omega

/-- Single-byte encodings. -/
theorem utf8Bytes_eq_one (c : Char) (h1 : c.toNat < 0x80) :
    utf8Bytes c = [c.toNat] := by
  simp only [utf8Bytes]
  rw [if_pos h1]

/-- Two-byte encodings. -/
theorem utf8Bytes_eq_two (c : Char) (h1 : ¬ c.toNat < 0x80) (h2 : c.toNat < 0x800) :
    utf8Bytes c = [0xC0 + c.toNat / 64, 0x80 + c.toNat % 64] := by
  simp only [utf8Bytes]
  rw [if_neg h1, if_pos h2]

/-- Three-byte encodings. -/
theorem utf8Bytes_eq_three (c : Char) (h1 : ¬ c.toNat < 0x80) (h2 : ¬ c.toNat < 0x800)
    (h3 : c.toNat < 0x10000) :
    utf8Bytes c = [0xE0 + c.toNat / 4096, 0x80 + c.toNat / 64 % 64, 0x80 + c.toNat % 64] := by
  simp only [utf8Bytes]
  rw [if_neg h1, if_neg h2, if_pos h3]

/-- Four-byte encodings. -/
theorem utf8Bytes_eq_four (c : Char) (h1 : ¬ c.toNat < 0x80) (h2 : ¬ c.toNat < 0x800)
    (h3 : ¬ c.toNat < 0x10000) :
    utf8Bytes c = [0xF0 + c.toNat / 262144, 0x80 + c.toNat / 4096 % 64,
      0x80 + c.toNat / 64 % 64, 0x80 + c.toNat % 64] := by
  simp only [utf8Bytes]
  rw [if_neg h1, if_neg h2, if_neg h3]

/-- Decoding a UTF-8 character block recovers the character and
continues with the remaining bytes, consuming one unit of fuel. -/
theorem utf8DecodeAux_block (c : Char) (l : List Nat) (fuel : Nat) :
    utf8DecodeAux (fuel + 1) (utf8Bytes c ++ l) = c :: utf8DecodeAux fuel l := by
  have hv := char_toNat_lt c
  by_cases h1 : c.toNat < 0x80
  · rw [utf8Bytes_eq_one c h1]
    show utf8DecodeAux (fuel + 1) (c.toNat :: l) = _
    simp only [utf8DecodeAux]
    rw [if_pos h1, Char.ofNat_toNat]
  · by_cases h2 : c.toNat < 0x800
    · rw [utf8Bytes_eq_two c h1 h2]
      have hcont : isCont (0x80 + c.toNat % 64) = true := by
        rw [isCont_eq_range _ (by omega)]
        simp only [decide_eq_true_eq]
        omega
      show utf8DecodeAux (fuel + 1) (_ :: _ :: l) = _
      simp only [utf8DecodeAux]
      rw [if_neg (by omega), if_neg (by omega), if_pos (by omega)]
      simp only [hcont, if_true]
      rw [show (0xC0 + c.toNat / 64 - 0xC0) * 64 + (0x80 + c.toNat % 64 - 0x80) =
        c.toNat by omega, Char.ofNat_toNat]
    · by_cases h3 : c.toNat < 0x10000
      · rw [utf8Bytes_eq_three c h1 h2 h3]
        have hcont2 : isCont (0x80 + c.toNat / 64 % 64) = true := by
          rw [isCont_eq_range _ (by omega)]
          simp only [decide_eq_true_eq]
          omega
        have hcont3 : isCont (0x80 + c.toNat % 64) = true := by
          rw [isCont_eq_range _ (by omega)]
          simp only [decide_eq_true_eq]
          omega
        show utf8DecodeAux (fuel + 1) (_ :: _ :: _ :: l) = _
        simp only [utf8DecodeAux]
        rw [if_neg (by omega), if_neg (by omega), if_neg (by omega), if_pos (by omega)]
        simp only [hcont2, hcont3, Bool.and_self, if_true]
        rw [show (0xE0 + c.toNat / 4096 - 0xE0) * 4096 +
          (0x80 + c.toNat / 64 % 64 - 0x80) * 64 + (0x80 + c.toNat % 64 - 0x80) =
          c.toNat by omega, Char.ofNat_toNat]
      · rw [utf8Bytes_eq_four c h1 h2 h3]
        have hcont2 : isCont (0x80 + c.toNat / 4096 % 64) = true := by
          rw [isCont_eq_range _ (by omega)]
          simp only [decide_eq_true_eq]
          omega
        have hcont3 : isCont (0x80 + c.toNat / 64 % 64) = true := by
          rw [isCont_eq_range _ (by omega)]
          simp only [decide_eq_true_eq]
          omega
        have hcont4 : isCont (0x80 + c.toNat % 64) = true := by
          rw [isCont_eq_range _ (by omega)]
          simp only [decide_eq_true_eq]
          omega
        show utf8DecodeAux (fuel + 1) (_ :: _ :: _ :: _ :: l) = _
        simp only [utf8DecodeAux]
        rw [if_neg (by omega), if_neg (by omega), if_neg (by omega),
          if_neg (by omega), if_pos (by omega)]
        simp only [hcont2, hcont3, hcont4, Bool.and_self, if_true]
        rw [show (0xF0 + c.toNat / 262144 - 0xF0) * 262144 +
          (0x80 + c.toNat / 4096 % 64 - 0x80) * 4096 +
          (0x80 + c.toNat / 64 % 64 - 0x80) * 64 + (0x80 + c.toNat % 64 - 0x80) =
          c.toNat by omega, Char.ofNat_toNat]

/-- With enough fuel, decoding inverts encoding. -/
theorem utf8DecodeAux_encodeStr (cs : List Char) (fuel : Nat) (h : cs.length <= fuel) :
    utf8DecodeAux fuel (encodeStr cs) = cs := by
  induction cs generalizing fuel with
  | nil =>
    cases fuel <;> rfl
  | cons c rest ih =>
    obtain ⟨f, rfl⟩ : ∃ f, fuel = f + 1 := ⟨fuel - 1, by simp at h; omega⟩
    rw [encodeStr_cons, utf8DecodeAux_block, ih f (by simp at h; omega)]

/-- A string never has more characters than encoded bytes. -/
theorem length_le_encodeStr (cs : List Char) : cs.length <= (encodeStr cs).length := by
  induction cs with
  | nil => simp [encodeStr]
  | cons c rest ih =>
    rw [encodeStr_cons, List.length_append, List.length_cons]
    have := utf8Bytes_length_pos c
    omega

/-- Decoding inverts encoding. -/
theorem utf8Decode_encodeStr (cs : List Char) : utf8Decode (encodeStr cs) = cs := by
  exact utf8DecodeAux_encodeStr cs _ (length_le_encodeStr cs)

/-- truncateToBytes always returns a character-level prefix of its
input whose encoding fits the byte budget. -/
theorem truncateToBytes_take (v : List Char) (m : Nat) :
    ∃ n, truncateToBytes v m = v.take n ∧ (encodeStr (v.take n)).length ≤ m := by
  by_cases hfit : (encodeStr v).length ≤ m
  · refine ⟨v.length, ?_, ?_⟩
    · simp [truncateToBytes, hfit]
    · simpa using hfit
  · push_neg at hfit
    obtain ⟨n, hw, hle⟩ := walkBack_encode v m (by omega)
    refine ⟨n, ?_, hle⟩
    unfold truncateToBytes
    rw [if_neg (by omega), hw]
    have hsplit : encodeStr v = encodeStr (v.take n) ++ encodeStr (v.drop n) := by
      rw [← encodeStr_append, List.take_append_drop]
    rw [hsplit, List.take_left, utf8Decode_encodeStr]

set_option maxRecDepth 4000 in
/-- C3 counterexample: for a key of 125 ASCII bytes the value budget
floors at 0, the value is truncated to the empty string, and the
key+value byte total of the sanitized entry is 125, exceeding the
124-byte budget the claim asserts for every input map. -/
theorem C3_counterexample_long_key :
    sanitizeProperties [(List.replicate 125 'a', ['x'])] =
      [(List.replicate 125 'a', [])] ∧
    (encodeStr (List.replicate 125 'a')).length +
      (encodeStr ([] : List Char)).length > PROPERTY_MAX_BYTES := by
  constructor
  · decide
  · decide

/-- C3 (amended): sanitizeProperties truncates each value to the
budget 124 minus the key byte length (floored at zero); every output
value is a character-level prefix of the input value, so re-encoding
never splits a multi-byte character and decoding cannot fail; whenever
the key alone fits in 124 bytes the key+value total of the output
stays within 124 bytes; and a value already within the key+value
budget passes through unchanged. The 124-byte key+value bound holds
for keys of at most 124 encoded bytes (a longer key alone already
exceeds the budget, with the value truncated to empty). -/
theorem C3_sanitize_byte_budget :
    (∀ props : List (List Char × List Char),
      sanitizeProperties props = props.map (fun p =>
        (p.1, truncateToBytes p.2 (PROPERTY_MAX_BYTES - (encodeStr p.1).length)))) ∧
    (∀ k v : List Char,
      (∃ n, truncateToBytes v (PROPERTY_MAX_BYTES - (encodeStr k).length) = v.take n) ∧
      ((encodeStr k).length ≤ PROPERTY_MAX_BYTES →
        (encodeStr k).length +
          (encodeStr (truncateToBytes v
            (PROPERTY_MAX_BYTES - (encodeStr k).length))).length ≤
          PROPERTY_MAX_BYTES) ∧
      ((encodeStr k).length + (encodeStr v).length ≤ PROPERTY_MAX_BYTES →
        truncateToBytes v (PROPERTY_MAX_BYTES - (encodeStr k).length) = v)) := by
  refine ⟨fun props => rfl, fun k v => ?_⟩
  obtain ⟨n, heq, hle⟩ := truncateToBytes_take v (PROPERTY_MAX_BYTES - (encodeStr k).length)
  refine ⟨⟨n, heq⟩, ?_, ?_⟩
  · intro hk
    rw [heq]
    omega
  · intro hsum
    unfold truncateToBytes
    rw [if_pos (by omega)]

set_option maxRecDepth 4000 in
/-- Witness for C3 at a concrete input: under the two-byte key [i, d],
a 135-byte value of forty-five three-byte characters is truncated so
that key plus value stay within 124 bytes, and a short value passes
through unchanged. -/
theorem C3_sanitize_byte_budget_witness :
    ((encodeStr "id".data).length +
      (encodeStr (truncateToBytes (List.replicate 45 'あ')
        (PROPERTY_MAX_BYTES - (encodeStr "id".data).length))).length ≤
      PROPERTY_MAX_BYTES) ∧
    truncateToBytes "short".data (PROPERTY_MAX_BYTES - (encodeStr "id".data).length) =
      "short".data := by
  have h := C3_sanitize_byte_budget.2 "id".data (List.replicate 45 'あ')
  have h2 := C3_sanitize_byte_budget.2 "id".data "short".data
  exact ⟨h.2.1 (by decide), h2.2.2 (by decide)⟩

/-- No key of the cache produced by invalidateListCache starts with
the list prefix or the search prefix. -/
theorem invalidateListCache_clears (s : SvcState σ V) :
    ∀ e ∈ (invalidateListCache s).cache,
      strStartsWith e.1 CACHE_KEY_LIST = false ∧ strStartsWith e.1 CACHE_KEY_SEARCH = false := by
  intro e he
  simp only [invalidateListCache, CacheService.invalidateByPre] at he
  rw [List.mem_filter] at he
  obtain ⟨h1, hS⟩ := he
  rw [List.mem_filter] at h1
  obtain ⟨-, hL⟩ := h1
  constructor
  · simpa using hL
  · simpa using hS

/-- Every successful exit of registerBook goes through
invalidateListCache. -/
theorem registerBook_ok_state (env : DriveEnv σ) (m : BookMetadata) (content : List Nat)
    (mime : String) (s : SvcState σ V)
    (h : (registerBook env m content mime s).1.isOk = true) :
    ∃ t, (registerBook env m content mime s).2 = invalidateListCache t := by
  obtain ⟨r1, s2, hEq⟩ : ∃ r1 s2, registerBook env m content mime s = (r1, s2) := ⟨_, _, rfl⟩
  rw [hEq] at h ⊢
  unfold registerBook at hEq
  all_goals (try dsimp only at hEq)
  all_goals (try split at hEq)
  all_goals (try dsimp only at hEq)
  all_goals (try split at hEq)
  all_goals (try dsimp only at hEq)
  all_goals (try split at hEq)
  all_goals (try dsimp only at hEq)
  all_goals (try split at hEq)
  all_goals (try dsimp only at hEq)
  all_goals (try split at hEq)
  all_goals (try dsimp only at hEq)
  all_goals (try split at hEq)
  all_goals (try dsimp only at hEq)
  all_goals (try split at hEq)
  all_goals (try dsimp only at hEq)
  all_goals (try split at hEq)
  all_goals (try dsimp only at hEq)
  all_goals (try split at hEq)
  all_goals (try dsimp only at hEq)
  all_goals (try split at hEq)
  all_goals (try dsimp only at hEq)
  all_goals (try split at hEq)
  all_goals (try dsimp only at hEq)
  all_goals (try split at hEq)
  all_goals (try dsimp only at hEq)
  all_goals (try split at hEq)
  all_goals (try dsimp only at hEq)
  all_goals (try split at hEq)
  all_goals injection hEq with hr hs
  all_goals subst hr
  all_goals subst hs
  all_goals first
  | exact ⟨_, rfl⟩
  | simp [Except.isOk, Except.toBool] at h

/-- Every successful exit of moveStep goes through
invalidateListCache. -/
theorem moveStep_ok_state (env : DriveEnv σ) (fileId : String) (m : BookMetadataPatch)
    (existingFile updatedFile : DriveFile) (s3 : SvcState σ V)
    (r1 : Except String DriveFile) (s4 : SvcState σ V)
    (hEq : moveStep env fileId m existingFile updatedFile s3 = (r1, s4))
    (h : r1.isOk = true) : ∃ t, s4 = invalidateListCache t := by
  unfold moveStep at hEq
  all_goals (try dsimp only at hEq)
  all_goals (try split at hEq)
  all_goals (try dsimp only at hEq)
  all_goals (try split at hEq)
  all_goals (try dsimp only at hEq)
  all_goals (try split at hEq)
  all_goals (try dsimp only at hEq)
  all_goals (try split at hEq)
  all_goals (try dsimp only at hEq)
  all_goals (try split at hEq)
  all_goals (try dsimp only at hEq)
  all_goals (try split at hEq)
  all_goals (try dsimp only at hEq)
  all_goals (try split at hEq)
  all_goals (try dsimp only at hEq)
  all_goals (try split at hEq)
  all_goals injection hEq with hr hs
  all_goals subst hr
  all_goals subst hs
  all_goals first
  | exact ⟨_, rfl⟩
  | simp [Except.isOk, Except.toBool] at h

/-- moveStep only appends to the call trace. -/
theorem moveStep_trace (env : DriveEnv σ) (fileId : String) (m : BookMetadataPatch)
    (existingFile updatedFile : DriveFile) (s3 : SvcState σ V)
    (r1 : Except String DriveFile) (s4 : SvcState σ V)
    (hEq : moveStep env fileId m existingFile updatedFile s3 = (r1, s4)) :
    ∃ rest, s4.trace = s3.trace ++ rest := by
  unfold moveStep at hEq
  all_goals (try dsimp only at hEq)
  all_goals (try split at hEq)
  all_goals (try dsimp only at hEq)
  all_goals (try split at hEq)
  all_goals (try dsimp only at hEq)
  all_goals (try split at hEq)
  all_goals (try dsimp only at hEq)
  all_goals (try split at hEq)
  all_goals (try dsimp only at hEq)
  all_goals (try split at hEq)
  all_goals (try dsimp only at hEq)
  all_goals (try split at hEq)
  all_goals (try dsimp only at hEq)
  all_goals (try split at hEq)
  all_goals (try dsimp only at hEq)
  all_goals (try split at hEq)
  all_goals injection hEq with hr hs
  all_goals subst hs
  all_goals (try simp only [invalidateListCache])
  all_goals (try dsimp only)
  all_goals (try simp only [List.append_assoc])
  all_goals first
  | exact ⟨_, rfl⟩
  | exact ⟨[], (List.append_nil _).symm⟩

/-- When the move condition holds and the two folder-resolution calls
return fixed identifiers, a successful moveStep appends the
author-folder resolution to the trace and issues a move exactly when
the record's first parent is truthy and differs from the resolved
folder, and any move it issues is that one. -/
theorem moveStep_resolves (env : DriveEnv σ) (fileId : String) (m : BookMetadataPatch)
    (existingFile updatedFile : DriveFile) (s3 : SvcState σ V)
    (r : Except String DriveFile) (s4 : SvcState σ V) (a rootId newFolderId : String)
    (hA : m.authors = some a)
    (hcond : (a != "" && !(getProp existingFile.properties "authors" == some a)) = true)
    (hroot : ∀ d : σ, (env.ensureMyLibraryFolder d).1 = .ok rootId)
    (hfolder : ∀ d : σ,
      (env.ensureAuthorFolder rootId (getFirstAuthor a) d).1 = .ok newFolderId)
    (hEq : moveStep env fileId m existingFile updatedFile s3 = (r, s4))
    (hOk : r.isOk = true) :
    ∃ rest, s4.trace = s3.trace ++ rest ∧
      BCall.ensureAuthorFolder rootId (getFirstAuthor a) ∈ rest ∧
      (∀ oldFolderId, existingFile.parents.head? = some oldFolderId →
        (oldFolderId != "" && oldFolderId != newFolderId) = true →
        BCall.moveFile fileId newFolderId oldFolderId ∈ rest) ∧
      (∀ f t o, BCall.moveFile f t o ∈ rest →
        ∃ oldFolderId, existingFile.parents.head? = some oldFolderId ∧
          (oldFolderId != "" && oldFolderId != newFolderId) = true ∧
          f = fileId ∧ t = newFolderId ∧ o = oldFolderId) := by
  unfold moveStep at hEq
  rw [hA] at hEq
  dsimp only at hEq
  rw [if_pos hcond] at hEq
  obtain ⟨r4, d4, hr4⟩ : ∃ r4 d4, env.ensureMyLibraryFolder s3.drive = (r4, d4) :=
    ⟨_, _, rfl⟩
  have hr4v : r4 = .ok rootId := by have h := hroot s3.drive; rw [hr4] at h; exact h
  subst hr4v
  rw [hr4] at hEq
  dsimp only at hEq
  obtain ⟨r5, d5, hr5⟩ :
      ∃ r5 d5, env.ensureAuthorFolder rootId (getFirstAuthor a) d4 = (r5, d5) :=
    ⟨_, _, rfl⟩
  have hr5v : r5 = .ok newFolderId := by have h := hfolder d4; rw [hr5] at h; exact h
  subst hr5v
  rw [hr5] at hEq
  dsimp only at hEq
  cases hold : existingFile.parents.head? with
  | none =>
    rw [hold] at hEq
    dsimp only at hEq
    injection hEq with h1 h2
    subst h2
    refine ⟨[BCall.ensureMyLibraryFolder,
      BCall.ensureAuthorFolder rootId (getFirstAuthor a)], ?_, by simp, ?_, ?_⟩
    · simp [invalidateListCache]
    · intro oldF h'
      exact Option.noConfusion h'
    · intro f t o hmem
      simp at hmem
  | some oldF =>
    rw [hold] at hEq
    dsimp only at hEq
    by_cases hc2 : (oldF != "" && oldF != newFolderId) = true
    · rw [if_pos hc2] at hEq
      obtain ⟨rm, d6, hm6⟩ : ∃ rm d6, env.moveFile fileId newFolderId oldF d5 = (rm, d6) :=
        ⟨_, _, rfl⟩
      rw [hm6] at hEq
      cases rm with
      | error e =>
        dsimp only at hEq
        injection hEq with h1 h2
        rw [← h1] at hOk
        simp [Except.isOk, Except.toBool] at hOk
      | ok f6 =>
        dsimp only at hEq
        injection hEq with h1 h2
        subst h2
        refine ⟨[BCall.ensureMyLibraryFolder,
          BCall.ensureAuthorFolder rootId (getFirstAuthor a),
          BCall.moveFile fileId newFolderId oldF], ?_, by simp, ?_, ?_⟩
        · simp [invalidateListCache]
        · intro oldF' h' hc'
          injection h' with h''
          subst h''
          simp
        · intro f t o hmem
          simp at hmem
          obtain ⟨hf, ht, ho⟩ := hmem
          exact ⟨oldF, rfl, hc2, hf, ht, ho⟩
    · rw [if_neg hc2] at hEq
      injection hEq with h1 h2
      subst h2
      refine ⟨[BCall.ensureMyLibraryFolder,
        BCall.ensureAuthorFolder rootId (getFirstAuthor a)], ?_, by simp, ?_, ?_⟩
      · simp [invalidateListCache]
      · intro oldF' h' hc'
        injection h' with h''
        subst h''
        exact absurd hc' hc2
      · intro f t o hmem
        simp at hmem

/-- Every successful exit of updateBook goes through
invalidateListCache. -/
theorem updateBook_ok_state (env : DriveEnv σ) (fileId : String) (m : BookMetadataPatch)
    (s : SvcState σ V)
    (h : (updateBook env fileId m s).1.isOk = true) :
    ∃ t, (updateBook env fileId m s).2 = invalidateListCache t := by
  obtain ⟨r1, s2, hEq⟩ : ∃ r1 s2, updateBook env fileId m s = (r1, s2) := ⟨_, _, rfl⟩
  rw [hEq] at h ⊢
  unfold updateBook at hEq
  all_goals (try dsimp only at hEq)
  all_goals (try split at hEq)
  all_goals (try dsimp only at hEq)
  all_goals (try split at hEq)
  all_goals (try dsimp only at hEq)
  all_goals (try split at hEq)
  all_goals (try dsimp only at hEq)
  all_goals (try split at hEq)
  all_goals (try dsimp only at hEq)
  all_goals (try split at hEq)
  all_goals (try dsimp only at hEq)
  all_goals (try split at hEq)
  all_goals (try dsimp only at hEq)
  all_goals (try split at hEq)
  all_goals (try dsimp only at hEq)
  all_goals (try split at hEq)
  all_goals (try dsimp only at hEq)
  all_goals (try split at hEq)
  all_goals (try dsimp only at hEq)
  all_goals (try split at hEq)
  all_goals first
  | (injection hEq with hr hs; subst hr; subst hs;
      first
      | exact ⟨_, rfl⟩
      | simp [Except.isOk, Except.toBool] at h)
  | exact moveStep_ok_state _ _ _ _ _ _ _ _ hEq h

/-- Every successful exit of deleteBook goes through
invalidateListCache. -/
theorem deleteBook_ok_state (env : DriveEnv σ) (fileId : String) (s : SvcState σ V)
    (h : (deleteBook env fileId s).1.isOk = true) :
    ∃ t, (deleteBook env fileId s).2 = invalidateListCache t := by
  obtain ⟨r1, s2, hEq⟩ : ∃ r1 s2, deleteBook env fileId s = (r1, s2) := ⟨_, _, rfl⟩
  rw [hEq] at h ⊢
  unfold deleteBook at hEq
  all_goals (try dsimp only at hEq)
  all_goals (try split at hEq)
  all_goals (try dsimp only at hEq)
  all_goals (try split at hEq)
  all_goals (try dsimp only at hEq)
  all_goals (try split at hEq)
  all_goals (try dsimp only at hEq)
  all_goals (try split at hEq)
  all_goals (try dsimp only at hEq)
  all_goals (try split at hEq)
  all_goals (try dsimp only at hEq)
  all_goals (try split at hEq)
  all_goals (try dsimp only at hEq)
  all_goals (try split at hEq)
  all_goals (try dsimp only at hEq)
  all_goals (try split at hEq)
  all_goals (try dsimp only at hEq)
  all_goals (try split at hEq)
  all_goals (try dsimp only at hEq)
  all_goals (try split at hEq)
  all_goals (try dsimp only at hEq)
  all_goals (try split at hEq)
  all_goals (try dsimp only at hEq)
  all_goals (try split at hEq)
  all_goals (try dsimp only at hEq)
  all_goals (try split at hEq)
  all_goals (try dsimp only at hEq)
  all_goals (try split at hEq)
  all_goals injection hEq with hr hs
  all_goals subst hr
  all_goals subst hs
  all_goals first
  | exact ⟨_, rfl⟩
  | simp [Except.isOk, Except.toBool] at h

/-- C8: after a successful registerBook, updateBook or deleteBook, no
cache entry keyed under books:list and none keyed under books:search:
remains in the cache: every mutation path runs the invalidation before
returning. -/
theorem C8_mutations_clear_list_and_search_cache :
    (∀ (σ V : Type) (env : DriveEnv σ) (m : BookMetadata) (content : List Nat)
        (mime : String) (s : SvcState σ V),
      (registerBook env m content mime s).1.isOk = true →
      ∀ e ∈ (registerBook env m content mime s).2.cache,
        strStartsWith e.1 CACHE_KEY_LIST = false ∧
        strStartsWith e.1 CACHE_KEY_SEARCH = false) ∧
    (∀ (σ V : Type) (env : DriveEnv σ) (fileId : String) (m : BookMetadataPatch)
        (s : SvcState σ V),
      (updateBook env fileId m s).1.isOk = true →
      ∀ e ∈ (updateBook env fileId m s).2.cache,
        strStartsWith e.1 CACHE_KEY_LIST = false ∧
        strStartsWith e.1 CACHE_KEY_SEARCH = false) ∧
    (∀ (σ V : Type) (env : DriveEnv σ) (fileId : String) (s : SvcState σ V),
      (deleteBook env fileId s).1.isOk = true →
      ∀ e ∈ (deleteBook env fileId s).2.cache,
        strStartsWith e.1 CACHE_KEY_LIST = false ∧
        strStartsWith e.1 CACHE_KEY_SEARCH = false) := by
  refine ⟨?_, ?_, ?_⟩
  · intro σ V env m content mime s hOk
    obtain ⟨t, ht⟩ := registerBook_ok_state env m content mime s hOk
    rw [ht]
    exact invalidateListCache_clears t
  · intro σ V env fileId m s hOk
    obtain ⟨t, ht⟩ := updateBook_ok_state env fileId m s hOk
    rw [ht]
    exact invalidateListCache_clears t
  · intro σ V env fileId s hOk
    obtain ⟨t, ht⟩ := deleteBook_ok_state env fileId s hOk
    rw [ht]
    exact invalidateListCache_clears t

/-- Witness for C8 at a concrete input: a successful updateBook and a
successful deleteBook on the demo store leave the unrelated cache
entry subject to the theorem conclusion. -/
theorem C8_mutations_clear_cache_witness :
    (strStartsWith "other" CACHE_KEY_LIST = false ∧
      strStartsWith "other" CACHE_KEY_SEARCH = false) ∧
    (strStartsWith "other" CACHE_KEY_LIST = false ∧
      strStartsWith "other" CACHE_KEY_SEARCH = false) := by
  constructor
  · exact C8_mutations_clear_list_and_search_cache.2.1 (List DriveFile) Unit demoEnv "f1"
      { publisher := some "角川書店" } demoState (by decide)
      ("other", ⟨(), 999⟩) (by decide)
  · exact C8_mutations_clear_list_and_search_cache.2.2 (List DriveFile) Unit demoEnv "f1"
      demoState (by decide) ("other", ⟨(), 999⟩) (by decide)

/-- Looking up the key just set returns the new value. -/
theorem getProp_setProp_same (p : List (String × String)) (k v : String) :
    getProp (setProp p k v) k = some v := by
  induction p with
  | nil => simp [setProp, getProp]
  | cons h t ih =>
    obtain ⟨k1, v1⟩ := h
    by_cases hk : k1 = k
    · simp [setProp, hk, getProp]
    · simpa [setProp, hk, getProp, List.find?] using ih

/-- Setting one key leaves every other key unchanged. -/
theorem getProp_setProp_other (p : List (String × String)) (k k1 v : String)
    (h : k1 ≠ k) :
    getProp (setProp p k v) k1 = getProp p k1 := by
  induction p with
  | nil => simp [setProp, getProp, List.find?, Ne.symm h]
  | cons hd t ih =>
    obtain ⟨ka, va⟩ := hd
    by_cases hk : ka = k
    · subst hk
      simp [setProp, getProp, List.find?, Ne.symm h]
    · by_cases hk1 : ka = k1
      · subst hk1
        simp [setProp, hk, getProp, List.find?]
      · simpa [setProp, hk, getProp, List.find?, hk1] using ih

/-- C6 (amended): updateBook merges exactly the four supported fields
title, authors, publisher and publishedDate into the existing
properties — each of these overwrites its property when supplied and
keeps the existing value when unset, every other property key
(including description) keeps its existing value, and supplied isbn,
description or coverImageUrl patch fields are ignored — and the merged
map is exactly the argument of the updateFileProperties call that
persists it. -/
theorem C6_updateBook_merges_four_fields :
    (∀ (existing : DriveFile) (m : BookMetadataPatch),
      getProp (updateProps existing m) "title" =
        (match m.title with
          | some t => some t
          | none => getProp existing.properties "title") ∧
      getProp (updateProps existing m) "authors" =
        (match m.authors with
          | some a => some a
          | none => getProp existing.properties "authors") ∧
      getProp (updateProps existing m) "publisher" =
        (match m.publisher with
          | some x => some x
          | none => getProp existing.properties "publisher") ∧
      getProp (updateProps existing m) "published_date" =
        (match m.publishedDate with
          | some x => some x
          | none => getProp existing.properties "published_date") ∧
      (∀ key, key ≠ "title" → key ≠ "authors" → key ≠ "publisher" →
        key ≠ "published_date" →
        getProp (updateProps existing m) key = getProp existing.properties key)) ∧
    (∀ (σ V : Type) (env : DriveEnv σ) (fileId : String) (m : BookMetadataPatch)
        (s : SvcState σ V) (existing : DriveFile) (d1 : σ),
      env.getFile fileId s.drive = (.ok existing, d1) →
      BCall.updateFileProperties fileId (updateProps existing m) ∈
        (updateBook env fileId m s).2.trace) := by
  constructor
  · intro existing m
    refine ⟨?_, ?_, ?_, ?_, ?_⟩
    · cases hT : m.title <;> cases hA : m.authors <;> cases hP : m.publisher <;>
        cases hD : m.publishedDate <;>
        simp +decide [updateProps, hT, hA, hP, hD, getProp_setProp_same,
          getProp_setProp_other]
    · cases hT : m.title <;> cases hA : m.authors <;> cases hP : m.publisher <;>
        cases hD : m.publishedDate <;>
        simp +decide [updateProps, hT, hA, hP, hD, getProp_setProp_same,
          getProp_setProp_other]
    · cases hT : m.title <;> cases hA : m.authors <;> cases hP : m.publisher <;>
        cases hD : m.publishedDate <;>
        simp +decide [updateProps, hT, hA, hP, hD, getProp_setProp_same,
          getProp_setProp_other]
    · cases hT : m.title <;> cases hA : m.authors <;> cases hP : m.publisher <;>
        cases hD : m.publishedDate <;>
        simp +decide [updateProps, hT, hA, hP, hD, getProp_setProp_same,
          getProp_setProp_other]
    · intro key h1 h2 h3 h4
      cases hT : m.title <;> cases hA : m.authors <;> cases hP : m.publisher <;>
        cases hD : m.publishedDate <;>
        simp [updateProps, hT, hA, hP, hD, getProp_setProp_other, h1, h2, h3, h4]
  · intro σ V env fileId m s existing d1 hget
    obtain ⟨r1, s2, hEq⟩ : ∃ r1 s2, updateBook env fileId m s = (r1, s2) := ⟨_, _, rfl⟩
    rw [hEq]
    unfold updateBook at hEq
    rw [hget] at hEq
    all_goals (try dsimp only at hEq)
    all_goals (try split at hEq)
    all_goals (try dsimp only at hEq)
    all_goals (try split at hEq)
    all_goals (try dsimp only at hEq)
    all_goals (try split at hEq)
    all_goals (try dsimp only at hEq)
    all_goals (try split at hEq)
    all_goals (try dsimp only at hEq)
    all_goals (try split at hEq)
    all_goals (try dsimp only at hEq)
    all_goals (try split at hEq)
    all_goals (try dsimp only at hEq)
    all_goals (try split at hEq)
    all_goals (try dsimp only at hEq)
    all_goals (try split at hEq)
    all_goals (try dsimp only at hEq)
    all_goals (try split at hEq)
    all_goals (try dsimp only at hEq)
    all_goals (try split at hEq)
    all_goals first
    | (injection hEq with hr hs; subst hs; simp)
    | (obtain ⟨rest, htr⟩ := moveStep_trace _ _ _ _ _ _ _ _ hEq;
        rw [htr]; simp)

/-- C6 counterexample: a supplied description is ignored by
updateBook: the property map passed to the persisting
updateFileProperties call keeps the old description. -/
theorem C6_counterexample_description_ignored :
    (updateBook demoEnv "f1" { description := some "new" } demoState).2.trace =
      [BCall.getFile "f1", BCall.updateFileProperties "f1" demoFile.properties] ∧
    getProp demoFile.properties "description" = some "old" ∧
    getProp (updateProps demoFile { description := some "new" }) "description" ≠
      some "new" := by
  refine ⟨by decide, by decide, by decide⟩

/-- Witness for C6 at a concrete input: the merged map of a
publisher-only patch is persisted through updateFileProperties. -/
theorem C6_updateBook_merges_witness :
    BCall.updateFileProperties "f1"
        (updateProps demoFile { publisher := some "角川書店" }) ∈
      (updateBook demoEnv "f1" { publisher := some "角川書店" } demoState).2.trace := by
  exact C6_updateBook_merges_four_fields.2 (List DriveFile) Unit demoEnv "f1"
    { publisher := some "角川書店" } demoState demoFile demoState.drive rfl

/-- C7 (amended): updateBook recomputes the display filename from the
resulting title and authors where a supplied empty string falls back
to the existing property value, and renames only when that name
differs from the current one; whenever authors were supplied
non-empty and differ from the existing authors property — whether or
not the rename fired — a successful run resolves or creates the new
first author folder and moves the record there exactly when that
folder differs from the record's truthy first parent (and any move it
issues is that one); when the name is unchanged and the move logic
does not run, updateBook issues no rename, folder or move call at
all. -/
theorem C7_updateBook_conditional_rename_and_move :
    ∀ (σ V : Type) (env : DriveEnv σ) (fileId : String) (m : BookMetadataPatch)
      (s : SvcState σ V) (existing updated : DriveFile) (d1 d2 : σ),
      env.getFile fileId s.drive = (.ok existing, d1) →
      env.updateFileProperties fileId (updateProps existing m) d1 = (.ok updated, d2) →
      ((newDisplayName existing m = existing.name →
        (match m.authors with
          | some a => a != "" && !(getProp existing.properties "authors" == some a)
          | none => false) = false →
        updateBook env fileId m s =
          (.ok updated, invalidateListCache
            ⟨d2, s.cache, s.trace ++ [BCall.getFile fileId] ++
              [BCall.updateFileProperties fileId (updateProps existing m)]⟩)) ∧
      (newDisplayName existing m ≠ existing.name →
        BCall.renameFile fileId (newDisplayName existing m) ∈
          (updateBook env fileId m s).2.trace) ∧
      (∀ (a : String) (rootId newFolderId : String) (d4 d5 : σ),
        newDisplayName existing m = existing.name →
        m.authors = some a →
        (a != "" && !(getProp existing.properties "authors" == some a)) = true →
        env.ensureMyLibraryFolder d2 = (.ok rootId, d4) →
        env.ensureAuthorFolder rootId (getFirstAuthor a) d4 = (.ok newFolderId, d5) →
        (BCall.ensureAuthorFolder rootId (getFirstAuthor a) ∈
          (updateBook env fileId m s).2.trace) ∧
        (∀ oldFolderId, existing.parents.head? = some oldFolderId →
          (oldFolderId != "" && oldFolderId != newFolderId) = true →
          BCall.moveFile fileId newFolderId oldFolderId ∈
            (updateBook env fileId m s).2.trace) ∧
        (∀ oldFolderId, existing.parents.head? = some oldFolderId →
          oldFolderId = newFolderId →
          updateBook env fileId m s =
            (.ok updated, invalidateListCache
              ⟨d5, s.cache, s.trace ++ [BCall.getFile fileId] ++
                [BCall.updateFileProperties fileId (updateProps existing m)] ++
                [BCall.ensureMyLibraryFolder] ++
                [BCall.ensureAuthorFolder rootId (getFirstAuthor a)]⟩))) ∧
      (∀ (a rootId newFolderId : String),
        m.authors = some a →
        (a != "" && !(getProp existing.properties "authors" == some a)) = true →
        (∀ d : σ, (env.ensureMyLibraryFolder d).1 = .ok rootId) →
        (∀ d : σ,
          (env.ensureAuthorFolder rootId (getFirstAuthor a) d).1 = .ok newFolderId) →
        (updateBook env fileId m s).1.isOk = true →
        ∃ rest, (updateBook env fileId m s).2.trace = s.trace ++ rest ∧
          BCall.ensureAuthorFolder rootId (getFirstAuthor a) ∈ rest ∧
          (∀ oldFolderId, existing.parents.head? = some oldFolderId →
            (oldFolderId != "" && oldFolderId != newFolderId) = true →
            BCall.moveFile fileId newFolderId oldFolderId ∈ rest) ∧
          (∀ f t o, BCall.moveFile f t o ∈ rest →
            ∃ oldFolderId, existing.parents.head? = some oldFolderId ∧
              (oldFolderId != "" && oldFolderId != newFolderId) = true ∧
              f = fileId ∧ t = newFolderId ∧ o = oldFolderId))) := by
  intro σ V env fileId m s existing updated d1 d2 hget hupd
  refine ⟨?_, ?_, ?_, ?_⟩
  · intro hname hmc
    unfold updateBook
    rw [hget]
    dsimp only
    rw [hupd]
    dsimp only
    rw [if_pos hname]
    unfold moveStep
    cases hA : m.authors with
    | none => rfl
    | some a =>
      rw [hA] at hmc
      dsimp only at hmc ⊢
      rw [if_neg (by simp [hmc])]
  · intro hname
    unfold updateBook
    rw [hget]
    dsimp only
    rw [hupd]
    dsimp only
    rw [if_neg hname]
    cases hren : env.renameFile fileId (newDisplayName existing m) d2 with
    | mk rr d3 =>
      cases rr with
      | error e => simp
      | ok _ =>
        dsimp only
        obtain ⟨r4, s4, hMv⟩ :
            ∃ r4 s4, moveStep env fileId m existing updated
              ⟨d3, s.cache, s.trace ++ [BCall.getFile fileId] ++
                [BCall.updateFileProperties fileId (updateProps existing m)] ++
                [BCall.renameFile fileId (newDisplayName existing m)]⟩ = (r4, s4) :=
          ⟨_, _, rfl⟩
        rw [hMv]
        obtain ⟨rest, htr⟩ := moveStep_trace _ _ _ _ _ _ _ _ hMv
        rw [htr]
        simp
  · intro a rootId newFolderId d4 d5 hname hA hcond hroot hfolder
    unfold updateBook
    rw [hget]
    dsimp only
    rw [hupd]
    dsimp only
    rw [if_pos hname]
    unfold moveStep
    rw [hA]
    dsimp only
    rw [if_pos hcond]
    rw [hroot]
    dsimp only
    rw [hfolder]
    dsimp only
    refine ⟨?_, ?_, ?_⟩
    · cases hold : existing.parents.head? with
      | none => simp [invalidateListCache]
      | some oldF =>
        dsimp only
        by_cases hneq : (oldF != "" && oldF != newFolderId) = true
        · rw [if_pos hneq]
          cases hmv : env.moveFile fileId newFolderId oldF d5 with
          | mk rm d6 =>
            cases rm with
            | error e => simp
            | ok _ => simp [invalidateListCache]
        · rw [if_neg hneq]
          simp [invalidateListCache]
    · intro oldF holdF hne
      rw [holdF]
      dsimp only
      rw [if_pos hne]
      cases hmv : env.moveFile fileId newFolderId oldF d5 with
      | mk rm d6 =>
        cases rm with
        | error e => simp
        | ok _ => simp [invalidateListCache]
    · intro oldF holdF heq2
      rw [holdF]
      dsimp only
      rw [if_neg (by simp [heq2])]
  · intro a rootId newFolderId hA hcond hroot hfolder hOk
    obtain ⟨r, s', hEq⟩ : ∃ r s', updateBook env fileId m s = (r, s') := ⟨_, _, rfl⟩
    rw [hEq] at hOk ⊢
    dsimp only at hOk ⊢
    unfold updateBook at hEq
    rw [hget] at hEq
    dsimp only at hEq
    rw [hupd] at hEq
    dsimp only at hEq
    by_cases hname : newDisplayName existing m = existing.name
    · rw [if_pos hname] at hEq
      obtain ⟨rest, htr, hmem, hmv, honly⟩ :=
        moveStep_resolves env fileId m existing updated _ r s' a rootId newFolderId
          hA hcond hroot hfolder hEq hOk
      refine ⟨[BCall.getFile fileId] ++
        [BCall.updateFileProperties fileId (updateProps existing m)] ++ rest,
        ?_, ?_, ?_, ?_⟩
      · rw [htr]
        dsimp only
        simp [List.append_assoc]
      · simp [hmem]
      · intro oldF h' hc'
        simp [hmv oldF h' hc']
      · intro f t o hmem'
        simp at hmem'
        exact honly f t o hmem'
    · rw [if_neg hname] at hEq
      obtain ⟨rr, d3, hren⟩ :
          ∃ rr d3, env.renameFile fileId (newDisplayName existing m) d2 = (rr, d3) :=
        ⟨_, _, rfl⟩
      rw [hren] at hEq
      cases rr with
      | error e =>
        dsimp only at hEq
        injection hEq with h1 h2
        rw [← h1] at hOk
        simp [Except.isOk, Except.toBool] at hOk
      | ok f3 =>
        dsimp only at hEq
        obtain ⟨rest, htr, hmem, hmv, honly⟩ :=
          moveStep_resolves env fileId m existing updated _ r s' a rootId newFolderId
            hA hcond hroot hfolder hEq hOk
        refine ⟨[BCall.getFile fileId] ++
          [BCall.updateFileProperties fileId (updateProps existing m)] ++
          [BCall.renameFile fileId (newDisplayName existing m)] ++ rest,
          ?_, ?_, ?_, ?_⟩
        · rw [htr]
          dsimp only
          simp [List.append_assoc]
        · simp [hmem]
        · intro oldF h' hc'
          simp [hmv oldF h' hc']
        · intro f t o hmem'
          simp at hmem'
          exact honly f t o hmem'

/-- C7 counterexample: supplying the empty string as authors counts as
supplied-and-changed under the claim, yet updateBook resolves no
author folder and issues no move: the whole run performs only the
getFile and updateFileProperties calls. -/
theorem C7_counterexample_empty_authors :
    (some "" ≠ getProp demoFile.properties "authors") ∧
    (updateBook demoEnv "f1" { authors := some "" } demoState).2.trace =
      [BCall.getFile "f1",
        BCall.updateFileProperties "f1"
          (updateProps demoFile { authors := some "" })] := by
  constructor
  · decide
  · decide

/-- Witness for C7 at a concrete input: supplying authors B to the
demo record changes its display name, so the rename fires, and the
record is still moved from its author_太宰治 folder to the resolved
author_B folder. -/
theorem C7_updateBook_rename_move_witness :
    newDisplayName demoFile { authors := some "B" } ≠ demoFile.name ∧
    BCall.moveFile "f1" "author_B" "author_太宰治" ∈
      (updateBook demoEnv "f1" { authors := some "B" } demoState).2.trace := by
  have h := (C7_updateBook_conditional_rename_and_move (List DriveFile) Unit demoEnv "f1"
    { authors := some "B" } demoState demoFile
    { demoFile with properties := updateProps demoFile { authors := some "B" } }
    demoState.drive
    [{ demoFile with properties := updateProps demoFile { authors := some "B" } }]
    (by decide) (by decide)).2.2.2 "B" "lib" "author_B" rfl (by decide)
    (fun d => rfl) (fun d => rfl) (by decide)
  obtain ⟨rest, htr, -, hmv, -⟩ := h
  refine ⟨by decide, ?_⟩
  rw [htr]
  exact List.mem_append.mpr (Or.inr (hmv "author_太宰治" (by decide) (by decide)))

/-! ### Migrator theorems -/

/-- The outer walk over a concatenation: the second part runs only if
the first part ends normally (no listing error, no break). -/
theorem processAuthors_append (denv : MigDriveEnv σ) (benv : MigBookEnv σ)
    (options : MigrationOptions) (l1 l2 : List DriveFile)
    (acc : MigrationResult) (d : σ) :
    processAuthors denv benv options (l1 ++ l2) acc d =
      match processAuthors denv benv options l1 acc d with
      | (.ok a, dd, false) => processAuthors denv benv options l2 a dd
      | other => other := by
  induction l1 generalizing acc d with
  | nil => simp [processAuthors]
  | cons af rest ih =>
    simp only [List.cons_append, processAuthors, List.append_eq]
    by_cases hm : af.mimeType ≠ FOLDER_MIME
    · rw [if_pos hm, if_pos hm]
      exact ih acc d
    · rw [if_neg hm, if_neg hm]
      obtain ⟨rl, d1, hls⟩ : ∃ rl d1, denv.findFilesByParent af.id d = (rl, d1) :=
        ⟨_, _, rfl⟩
      rw [hls]
      cases rl with
      | error e => rfl
      | ok bfs =>
        dsimp only
        obtain ⟨acc2, d2, b, hpb⟩ :
            ∃ acc2 d2 b, processBooks denv benv options bfs acc d1 = (acc2, d2, b) :=
          ⟨_, _, _, rfl⟩
        rw [hpb]
        cases b with
        | true => rfl
        | false => exact ih acc2 d2

/-- C10: Partial-failure isolation does not extend to the outer folder
walk. If listing the source root's children fails, migrate propagates
that error; and if, after some prefix of author folders is processed
normally, listing the next author folder's children fails, migrate
propagates that error too — no MigrationResult is produced. -/
theorem C10_outer_listing_errors_propagate :
    (∀ (σ : Type) (denv : MigDriveEnv σ) (benv : MigBookEnv σ)
       (options : MigrationOptions) (src : String) (d : σ) (e : String) (d2 : σ),
       denv.findFilesByParent src d = (.error e, d2) →
       migrate denv benv options src d = (.error e, d2)) ∧
    (∀ (σ : Type) (denv : MigDriveEnv σ) (benv : MigBookEnv σ)
       (options : MigrationOptions) (src : String) (d d1 : σ)
       (pre : List DriveFile) (af : DriveFile) (post : List DriveFile)
       (acc2 : MigrationResult) (d2 : σ) (e : String) (d3 : σ),
       denv.findFilesByParent src d = (.ok (pre ++ af :: post), d1) →
       processAuthors denv benv options pre emptyResult d1 = (.ok acc2, d2, false) →
       af.mimeType = FOLDER_MIME →
       denv.findFilesByParent af.id d2 = (.error e, d3) →
       migrate denv benv options src d = (.error e, d3)) := by
  constructor
  · intro σ denv benv options src d e d2 h
    simp [migrate, h]
  · intro σ denv benv options src d d1 pre af post acc2 d2 e d3 hroot hpre hmime hfail
    simp only [migrate, hroot]
    rw [processAuthors_append, hpre]
    simp only [processAuthors]
    rw [if_neg (fun hn => hn hmime), hfail]

/-- C10 witness: in the demo tree with the source id replaced by an
unknown one the root listing fails and the run aborts; and a failing
author listing after one processed author likewise aborts the run. -/
theorem C10_outer_listing_errors_propagate_witness :
    migrate c10denv c2benv {} "badsource" [] = (.error "root listing failed", []) ∧
    migrate c10denv2 c2benv {} "source" [] = (.error "author listing failed", c2store) := by
  constructor
  · exact C10_outer_listing_errors_propagate.1 (List BookMetadata) c10denv c2benv {}
      "badsource" [] "root listing failed" [] (by decide)
  · exact C10_outer_listing_errors_propagate.2 (List BookMetadata) c10denv2 c2benv {}
      "source" [] [] [migFolder "af1" "著者1"] (migFolder "afX" "著者X") []
      ⟨1, 1, 0, 0, [⟨"本1", .succeeded, none⟩]⟩ c2store "author listing failed" c2store
      (by decide) (by decide) (by decide) (by decide)

/-- C2: a failing migration unit is caught at the unit level and
recorded as an error detail carrying the failure message, and the book
loop continues with the remaining units; concretely, the three-unit
demo run (one unit fails during its file listing) yields total 3 with
one succeeded, one error carrying the message, one skipped, in order. -/
theorem C2_unit_failures_isolated :
    (∀ (σ : Type) (denv : MigDriveEnv σ) (benv : MigBookEnv σ)
       (options : MigrationOptions) (bf : DriveFile) (rest : List DriveFile)
       (acc : MigrationResult) (d : σ) (e : String) (d2 : σ),
       migrateBook denv benv options bf.id bf.name d = (.error e, d2) →
       bf.mimeType = FOLDER_MIME →
       limitReached options acc.total = false →
       processBooks denv benv options (bf :: rest) acc d =
         processBooks denv benv options rest
           (recordDetail { acc with total := acc.total + 1 }
             ⟨bf.name, .error, some e⟩) d2) ∧
    migrate c2denv c2benv {} "source" [] = (.ok c2result, c2store) := by
  constructor
  · intro σ denv benv options bf rest acc d e d2 hmb hmime hlim
    simp only [processBooks]
    rw [if_neg (fun hn => hn hmime), if_neg (by simp [hlim]), hmb]
  · decide

/-- C2 witness: the general catch clause applied to the failing unit
of the demo tree, alone in a book loop, yields the single error
detail. -/
theorem C2_unit_failures_isolated_witness :
    processBooks c2denv c2benv {} [migFolder "bf2" "本2"] emptyResult [] =
      (⟨1, 0, 0, 1, [⟨"本2", .error, some "API Error"⟩]⟩, [], false) := by
  have h := C2_unit_failures_isolated.1 (List BookMetadata) c2denv c2benv {}
    (migFolder "bf2" "本2") [] emptyResult [] "API Error" []
    (by decide) (by decide) (by decide)
  exact h.trans (by decide)

/-- C9: in dry-run mode, a unit whose folder holds a supported
artifact and that passes the duplicate-ISBN probe returns a succeeded
detail with the backing store exactly as it was; the run is identical
under any BookService whose registration operation is replaced (the
registration is never consulted); and probing the unit's ISBN in the
final store still finds no record. -/
theorem C9_dry_run_no_registration
    (σ : Type) (denv : MigDriveEnv σ) (benv : MigBookEnv σ)
    (options : MigrationOptions) (folderId folderName : String) (d : σ)
    (files : List DriveFile) (md : BookMetadataPatch)
    (hdry : options.dryRun = true)
    (hfiles : denv.findFilesByParent folderId d = (.ok files, d))
    (hmd : readOpfMetadata denv files d = (.ok md, d))
    (hdup : ∀ i, md.isbn = some i → i ≠ "" → benv.findBookByIsbn i d = (.ok none, d))
    (hart : (selectBookFile files).isSome = true) :
    migrateBook denv benv options folderId folderName d =
      (.ok ⟨optOr md.title folderName, .succeeded, none⟩, d) ∧
    (∀ benv2 : MigBookEnv σ, benv2.findBookByIsbn = benv.findBookByIsbn →
      migrateBook denv benv2 options folderId folderName d =
        migrateBook denv benv options folderId folderName d) ∧
    (∀ i, md.isbn = some i → i ≠ "" →
      benv.findBookByIsbn i (migrateBook denv benv options folderId folderName d).2 =
        (.ok none, (migrateBook denv benv options folderId folderName d).2)) := by
  obtain ⟨bfile, hbf⟩ := Option.isSome_iff_exists.mp hart
  have hrest : ∀ (benvx : MigBookEnv σ) (mdx : BookMetadataPatch) (tx : String),
      migrateBookRest denv benvx options files mdx tx d =
        (.ok ⟨tx, .succeeded, none⟩, d) := by
    intro benvx mdx tx
    simp only [migrateBookRest, hbf, hdry]
    rw [if_pos trivial]
  have hgen : ∀ benvx : MigBookEnv σ,
      (∀ i, md.isbn = some i → i ≠ "" → benvx.findBookByIsbn i d = (.ok none, d)) →
      migrateBook denv benvx options folderId folderName d =
        (.ok ⟨optOr md.title folderName, .succeeded, none⟩, d) := by
    intro benvx hdupx
    simp only [migrateBook, hfiles, hmd]
    cases hI : md.isbn with
    | none => exact hrest benvx md _
    | some i =>
      dsimp only
      by_cases hne : i = ""
      · rw [if_neg (by simp [hne])]
        exact hrest benvx md _
      · rw [if_pos hne, hdupx i hI hne]
        exact hrest benvx md _
  have hmain := hgen benv hdup
  refine ⟨hmain, fun benv2 hfb => ?_, fun i hI hne => ?_⟩
  · rw [hgen benv2 (fun i hI hne => by rw [hfb]; exact hdup i hI hne), hmain]
  · rw [hmain]
    exact hdup i hI hne

/-- C9 witness: the dry-run demo unit reports succeeded and leaves the
empty store empty. -/
theorem C9_dry_run_no_registration_witness :
    migrateBook c9denv c9benv ⟨true, none⟩ "bf9" "Dry Book" [] =
      (.ok ⟨"Dry Book", .succeeded, none⟩, ([] : List BookMetadata)) ∧
    c9benv.findBookByIsbn "X"
        (migrateBook c9denv c9benv ⟨true, none⟩ "bf9" "Dry Book" []).2 =
      (.ok none, ([] : List BookMetadata)) := by
  have h := C9_dry_run_no_registration (List BookMetadata) c9denv c9benv ⟨true, none⟩
    "bf9" "Dry Book" [] [c9file] {} rfl (by decide) (by decide)
    (fun i hI hne => nomatch hI) (by decide)
  refine ⟨?_, ?_⟩
  · exact h.1.trans (by decide)
  · rw [h.1]
    decide

/-- recordDetail leaves the total as given. -/
theorem recordDetail_total (acc : MigrationResult) (dt : MigrationDetail) :
    (recordDetail acc dt).total = acc.total := rfl

/-- One recording step preserves the counting invariants. -/
theorem recordDetail_counts (acc : MigrationResult) (dt : MigrationDetail)
    (h1 : acc.total = acc.succeeded + acc.skipped + acc.errors)
    (h2 : acc.details.length = acc.total) :
    (recordDetail { acc with total := acc.total + 1 } dt).total =
        (recordDetail { acc with total := acc.total + 1 } dt).succeeded +
          (recordDetail { acc with total := acc.total + 1 } dt).skipped +
          (recordDetail { acc with total := acc.total + 1 } dt).errors ∧
      (recordDetail { acc with total := acc.total + 1 } dt).details.length =
        (recordDetail { acc with total := acc.total + 1 } dt).total := by
  simp only [recordDetail]
  cases dt.status <;> simp <;> omega

/-- The book loop preserves the counting invariants. -/
theorem processBooks_counts (denv : MigDriveEnv σ) (benv : MigBookEnv σ)
    (options : MigrationOptions) (bfs : List DriveFile) :
    ∀ (acc : MigrationResult) (d : σ),
    acc.total = acc.succeeded + acc.skipped + acc.errors →
    acc.details.length = acc.total →
    (processBooks denv benv options bfs acc d).1.total =
        (processBooks denv benv options bfs acc d).1.succeeded +
          (processBooks denv benv options bfs acc d).1.skipped +
          (processBooks denv benv options bfs acc d).1.errors ∧
      (processBooks denv benv options bfs acc d).1.details.length =
        (processBooks denv benv options bfs acc d).1.total := by
  induction bfs with
  | nil => intro acc d h1 h2; exact ⟨h1, h2⟩
  | cons bf rest ih =>
    intro acc d h1 h2
    simp only [processBooks]
    by_cases hm : bf.mimeType ≠ FOLDER_MIME
    · rw [if_pos hm]; exact ih acc d h1 h2
    · rw [if_neg hm]
      by_cases hl : limitReached options acc.total = true
      · rw [if_pos hl]; exact ⟨h1, h2⟩
      · rw [if_neg hl]
        obtain ⟨r, d2, hmb⟩ :
            ∃ r d2, migrateBook denv benv options bf.id bf.name d = (r, d2) :=
          ⟨_, _, rfl⟩
        rw [hmb]
        cases r with
        | ok detail =>
          dsimp only
          obtain ⟨c1, c2⟩ := recordDetail_counts acc detail h1 h2
          exact ih _ d2 c1 c2
        | error e =>
          dsimp only
          obtain ⟨c1, c2⟩ := recordDetail_counts acc ⟨bf.name, .error, some e⟩ h1 h2
          exact ih _ d2 c1 c2

/-- The author walk preserves the counting invariants on a normal
result. -/
theorem processAuthors_counts (denv : MigDriveEnv σ) (benv : MigBookEnv σ)
    (options : MigrationOptions) (afs : List DriveFile) :
    ∀ (acc : MigrationResult) (d : σ) (r : MigrationResult) (d2 : σ) (b : Bool),
    processAuthors denv benv options afs acc d = (.ok r, d2, b) →
    acc.total = acc.succeeded + acc.skipped + acc.errors →
    acc.details.length = acc.total →
    r.total = r.succeeded + r.skipped + r.errors ∧ r.details.length = r.total := by
  induction afs with
  | nil =>
    intro acc d r d2 b h h1 h2
    simp only [processAuthors, Prod.mk.injEq, Except.ok.injEq] at h
    obtain ⟨hr, -, -⟩ := h
    exact hr ▸ ⟨h1, h2⟩
  | cons af rest ih =>
    intro acc d r d2 b h h1 h2
    simp only [processAuthors] at h
    by_cases hm : af.mimeType ≠ FOLDER_MIME
    · rw [if_pos hm] at h; exact ih acc d r d2 b h h1 h2
    · rw [if_neg hm] at h
      obtain ⟨rl, d1, hls⟩ : ∃ rl d1, denv.findFilesByParent af.id d = (rl, d1) :=
        ⟨_, _, rfl⟩
      rw [hls] at h
      cases rl with
      | error e => dsimp only at h; simp at h
      | ok bfs =>
        dsimp only at h
        obtain ⟨acc2, d2', b', hpb⟩ :
            ∃ acc2 d2' b', processBooks denv benv options bfs acc d1 = (acc2, d2', b') :=
          ⟨_, _, _, rfl⟩
        rw [hpb] at h
        have hc := processBooks_counts denv benv options bfs acc d1 h1 h2
        rw [hpb] at hc
        cases b' with
        | true =>
          dsimp only at h
          simp only [Prod.mk.injEq, Except.ok.injEq] at h
          obtain ⟨hr, -, -⟩ := h
          exact hr ▸ hc
        | false =>
          dsimp only at h
          exact ih acc2 d2' r d2 b h hc.1 hc.2

/-- runUnits yields one detail per unit. -/
theorem runUnits_length (denv : MigDriveEnv σ) (benv : MigBookEnv σ)
    (options : MigrationOptions) (units : List DriveFile) :
    ∀ d : σ, (runUnits denv benv options units d).1.length = units.length := by
  induction units with
  | nil => intro d; rfl
  | cons bf rest ih =>
    intro d
    simp only [runUnits]
    obtain ⟨r, d2, hmb⟩ :
        ∃ r d2, migrateBook denv benv options bf.id bf.name d = (r, d2) :=
      ⟨_, _, rfl⟩
    rw [hmb]
    cases r <;> simp [ih d2]

/-- runUnits over a concatenation splits sequentially. -/
theorem runUnits_append (denv : MigDriveEnv σ) (benv : MigBookEnv σ)
    (options : MigrationOptions) (l1 l2 : List DriveFile) :
    ∀ d : σ,
    runUnits denv benv options (l1 ++ l2) d =
      ((runUnits denv benv options l1 d).1 ++
         (runUnits denv benv options l2 (runUnits denv benv options l1 d).2).1,
       (runUnits denv benv options l2 (runUnits denv benv options l1 d).2).2) := by
  induction l1 with
  | nil => intro d; simp [runUnits]
  | cons bf rest ih =>
    intro d
    simp only [List.cons_append, runUnits, List.append_eq]
    obtain ⟨r, d2, hmb⟩ :
        ∃ r d2, migrateBook denv benv options bf.id bf.name d = (r, d2) :=
      ⟨_, _, rfl⟩
    rw [hmb]
    cases r <;> dsimp only <;> rw [ih d2] <;> simp

/-- The fold of a cons. -/
theorem foldDetails_cons (acc : MigrationResult) (dt : MigrationDetail)
    (l : List MigrationDetail) :
    foldDetails acc (dt :: l) =
      foldDetails (recordDetail { acc with total := acc.total + 1 } dt) l := rfl

/-- The fold of a concatenation. -/
theorem foldDetails_append (acc : MigrationResult) (l1 l2 : List MigrationDetail) :
    foldDetails acc (l1 ++ l2) = foldDetails (foldDetails acc l1) l2 := by
  simp [foldDetails, List.foldl_append]

/-- Folding details bumps the total by their number. -/
theorem foldDetails_total (l : List MigrationDetail) :
    ∀ acc : MigrationResult, (foldDetails acc l).total = acc.total + l.length := by
  induction l with
  | nil => intro acc; simp [foldDetails]
  | cons dt l ih =>
    intro acc
    rw [foldDetails_cons, ih]
    simp [recordDetail]
    omega

/-- Folding details appends them in order. -/
theorem foldDetails_details (l : List MigrationDetail) :
    ∀ acc : MigrationResult, (foldDetails acc l).details = acc.details ++ l := by
  induction l with
  | nil => intro acc; simp [foldDetails]
  | cons dt l ih =>
    intro acc
    rw [foldDetails_cons, ih]
    simp [recordDetail]

/-- The discovery count is the start plus the number of discovered
units. -/
theorem discoverBooks_count (options : MigrationOptions) (bfs : List DriveFile) :
    ∀ count : Nat,
    (discoverBooks options bfs count).2.1 =
      count + (discoverBooks options bfs count).1.length := by
  induction bfs with
  | nil => intro c; simp [discoverBooks]
  | cons bf rest ih =>
    intro c
    simp only [discoverBooks]
    by_cases hm : bf.mimeType ≠ FOLDER_MIME
    · rw [if_pos hm]; exact ih c
    · rw [if_neg hm]
      by_cases hl : limitReached options c = true
      · rw [if_pos hl]; simp
      · rw [if_neg hl]
        dsimp only
        rw [ih (c + 1)]
        simp only [List.length_cons]
        omega

/-- The book loop is exactly: discover the units, run them in order,
fold their details into the aggregate. -/
theorem processBooks_discover (denv : MigDriveEnv σ) (benv : MigBookEnv σ)
    (options : MigrationOptions) (bfs : List DriveFile) :
    ∀ (acc : MigrationResult) (d : σ),
    processBooks denv benv options bfs acc d =
      (foldDetails acc
         (runUnits denv benv options (discoverBooks options bfs acc.total).1 d).1,
       (runUnits denv benv options (discoverBooks options bfs acc.total).1 d).2,
       (discoverBooks options bfs acc.total).2.2) := by
  induction bfs with
  | nil => intro acc d; rfl
  | cons bf rest ih =>
    intro acc d
    simp only [processBooks, discoverBooks]
    by_cases hm : bf.mimeType ≠ FOLDER_MIME
    · rw [if_pos hm, if_pos hm]; exact ih acc d
    · rw [if_neg hm, if_neg hm]
      by_cases hl : limitReached options acc.total = true
      · rw [if_pos hl, if_pos hl]; rfl
      · rw [if_neg hl, if_neg hl]
        dsimp only
        simp only [runUnits]
        obtain ⟨r, d2, hmb⟩ :
            ∃ r d2, migrateBook denv benv options bf.id bf.name d = (r, d2) :=
          ⟨_, _, rfl⟩
        rw [hmb]
        cases r with
        | ok detail =>
          dsimp only
          rw [ih (recordDetail { acc with total := acc.total + 1 } detail) d2]
          simp only [recordDetail_total]
          rw [foldDetails_cons]
        | error e =>
          dsimp only
          rw [ih (recordDetail { acc with total := acc.total + 1 }
            ⟨bf.name, .error, some e⟩) d2]
          simp only [recordDetail_total]
          rw [foldDetails_cons]

/-- Under pure listings, a normal author walk is exactly: discover the
units, run them in order, fold their details. -/
theorem processAuthors_discover (denv : MigDriveEnv σ) (benv : MigBookEnv σ)
    (options : MigrationOptions) (pf : String → Except String (List DriveFile))
    (hp : ∀ id (dd : σ), denv.findFilesByParent id dd = (pf id, dd))
    (afs : List DriveFile) :
    ∀ (acc : MigrationResult) (d : σ) (r : MigrationResult) (d2 : σ) (b : Bool),
    processAuthors denv benv options afs acc d = (.ok r, d2, b) →
    ∃ units, discoverAuthors pf options afs acc.total = (.ok units, b) ∧
      r = foldDetails acc (runUnits denv benv options units d).1 ∧
      d2 = (runUnits denv benv options units d).2 := by
  induction afs with
  | nil =>
    intro acc d r d2 b h
    simp only [processAuthors, Prod.mk.injEq, Except.ok.injEq] at h
    obtain ⟨h1, h2, h3⟩ := h
    exact ⟨[], by simp [discoverAuthors, h3], by simp [runUnits, foldDetails, h1],
      by simp [runUnits, h2]⟩
  | cons af rest ih =>
    intro acc d r d2 b h
    simp only [processAuthors] at h
    by_cases hm : af.mimeType ≠ FOLDER_MIME
    · rw [if_pos hm] at h
      obtain ⟨units, h1, h2, h3⟩ := ih acc d r d2 b h
      refine ⟨units, ?_, h2, h3⟩
      simp only [discoverAuthors]
      rw [if_pos hm]
      exact h1
    · rw [if_neg hm] at h
      rw [hp af.id d] at h
      cases hpf : pf af.id with
      | error e => rw [hpf] at h; dsimp only at h; simp at h
      | ok bfs =>
        rw [hpf] at h
        dsimp only at h
        rw [processBooks_discover denv benv options bfs acc d] at h
        cases hB : (discoverBooks options bfs acc.total).2.2 with
        | true =>
          rw [hB] at h
          dsimp only at h
          simp only [Prod.mk.injEq, Except.ok.injEq] at h
          obtain ⟨h1, h2, h3⟩ := h
          refine ⟨(discoverBooks options bfs acc.total).1, ?_, h1.symm, h2.symm⟩
          simp only [discoverAuthors]
          rw [if_neg hm, hpf]
          dsimp only
          rw [if_pos hB, h3]
        | false =>
          rw [hB] at h
          dsimp only at h
          obtain ⟨units2, h1, h2, h3⟩ := ih _ _ r d2 b h
          have htot :
              (foldDetails acc
                (runUnits denv benv options
                  (discoverBooks options bfs acc.total).1 d).1).total =
                (discoverBooks options bfs acc.total).2.1 := by
            rw [foldDetails_total, runUnits_length, ← discoverBooks_count]
          rw [htot] at h1
          refine ⟨(discoverBooks options bfs acc.total).1 ++ units2, ?_, ?_, ?_⟩
          · simp only [discoverAuthors]
            rw [if_neg hm, hpf]
            dsimp only
            rw [if_neg (by simp [hB]), h1]
          · rw [runUnits_append, foldDetails_append]
            exact h2
          · rw [runUnits_append]
            exact h3

/-- C4: every normally produced MigrationResult satisfies
total = succeeded + skipped + errors with a detail list of exactly
total entries; and when listings are pure reads, the details are
exactly those of the discovered units (author folders in listing
order, book folders in listing order within each author, up to the
limit), processed in that order. -/
theorem C4_result_accounting_and_order :
    (∀ (σ : Type) (denv : MigDriveEnv σ) (benv : MigBookEnv σ)
       (options : MigrationOptions) (src : String) (d : σ)
       (r : MigrationResult) (d2 : σ),
       migrate denv benv options src d = (.ok r, d2) →
       r.total = r.succeeded + r.skipped + r.errors ∧
         r.details.length = r.total) ∧
    (∀ (σ : Type) (denv : MigDriveEnv σ) (benv : MigBookEnv σ)
       (options : MigrationOptions) (pf : String → Except String (List DriveFile))
       (src : String) (d : σ) (r : MigrationResult) (d2 : σ),
       (∀ id (dd : σ), denv.findFilesByParent id dd = (pf id, dd)) →
       migrate denv benv options src d = (.ok r, d2) →
       ∃ units b, discoverWalk pf options src = (.ok units, b) ∧
         r.details = (runUnits denv benv options units d).1) := by
  constructor
  · intro σ denv benv options src d r d2 hmig
    simp only [migrate] at hmig
    obtain ⟨rl, d1, hls⟩ : ∃ rl d1, denv.findFilesByParent src d = (rl, d1) :=
      ⟨_, _, rfl⟩
    rw [hls] at hmig
    cases rl with
    | error e => dsimp only at hmig; simp at hmig
    | ok afs =>
      dsimp only at hmig
      obtain ⟨rr, dd, bb, hpa⟩ :
          ∃ rr dd bb, processAuthors denv benv options afs emptyResult d1 = (rr, dd, bb) :=
        ⟨_, _, _, rfl⟩
      rw [hpa] at hmig
      dsimp only at hmig
      simp only [Prod.mk.injEq] at hmig
      obtain ⟨hrr, -⟩ := hmig
      rw [hrr] at hpa
      exact processAuthors_counts denv benv options afs emptyResult d1 r dd bb hpa
        rfl rfl
  · intro σ denv benv options pf src d r d2 hp hmig
    simp only [migrate] at hmig
    rw [hp src d] at hmig
    cases hpf : pf src with
    | error e => rw [hpf] at hmig; dsimp only at hmig; simp at hmig
    | ok afs =>
      rw [hpf] at hmig
      dsimp only at hmig
      obtain ⟨rr, dd, bb, hpa⟩ :
          ∃ rr dd bb, processAuthors denv benv options afs emptyResult d = (rr, dd, bb) :=
        ⟨_, _, _, rfl⟩
      rw [hpa] at hmig
      dsimp only at hmig
      simp only [Prod.mk.injEq] at hmig
      obtain ⟨hrr, -⟩ := hmig
      rw [hrr] at hpa
      obtain ⟨units, h1, h2, -⟩ :=
        processAuthors_discover denv benv options pf hp afs emptyResult d r dd bb hpa
      refine ⟨units, bb, ?_, ?_⟩
      · simp only [discoverWalk]
        rw [hpf]
        exact h1
      · rw [h2, foldDetails_details]
        rfl

/-- C4 witness: the three-unit demo run satisfies the accounting
equations and its details are exactly the run of the three discovered
units in order. -/
theorem C4_result_accounting_and_order_witness :
    (c2result.total = c2result.succeeded + c2result.skipped + c2result.errors ∧
      c2result.details.length = c2result.total) ∧
    ∃ units b, discoverWalk c2pf {} "source" = (.ok units, b) ∧
      c2result.details = (runUnits c2denv c2benv {} units []).1 := by
  have hmig : migrate c2denv c2benv {} "source" [] = (.ok c2result, c2store) := by
    decide
  exact ⟨C4_result_accounting_and_order.1 (List BookMetadata) c2denv c2benv {}
      "source" [] c2result c2store hmig,
    C4_result_accounting_and_order.2 (List BookMetadata) c2denv c2benv {}
      c2pf "source" [] c2result c2store (fun id dd => rfl) hmig⟩

end GDrive
